import Mathlib

/-!
Verification of the Intelligent-Scraper core against its specification.

The Python source is shallowly embedded: pure string-processing functions
(request classification, title inference and cleanup, URL filtering, PDF
chunk arithmetic, the extraction-cascade control flow) are translated into
executable Lean definitions over `List Char` / `String`.  Calls into
external libraries (network fetch, trafilatura, readability, newspaper,
BeautifulSoup text extraction, pypdf page text) are modelled as explicit
collaborator inputs, mirroring the spec's "external collaborators" section.
All character-level models cover the ASCII fragment of the corresponding
Python operations (`str.strip`, `str.lower`, `str.title`, `re` patterns),
which is the fragment exercised by every claim.
-/

set_option maxHeartbeats 2000000
set_option maxRecDepth 4000

/-- Python whitespace (`str.strip`, regex `\s`), ASCII fragment:
space, tab, LF, CR, VT, FF. -/
def isPyWS (c : Char) : Bool :=
  c.toNat == 32 || c.toNat == 9 || c.toNat == 10 || c.toNat == 13 ||
  c.toNat == 11 || c.toNat == 12

/-- ASCII letters, the cased characters of the ASCII fragment of Python. -/
def isAsciiAlpha (c : Char) : Bool :=
  (65 ≤ c.toNat && c.toNat ≤ 90) || (97 ≤ c.toNat && c.toNat ≤ 122)

def isAsciiLower (c : Char) : Bool := 97 ≤ c.toNat && c.toNat ≤ 122

def isDigitCh (c : Char) : Bool := 48 ≤ c.toNat && c.toNat ≤ 57

/-- Upper/lower case pairs for the ASCII letters. -/
def ucLcPairs : List (Char × Char) :=
  [('A','a'),('B','b'),('C','c'),('D','d'),('E','e'),('F','f'),('G','g'),
   ('H','h'),('I','i'),('J','j'),('K','k'),('L','l'),('M','m'),('N','n'),
   ('O','o'),('P','p'),('Q','q'),('R','r'),('S','s'),('T','t'),('U','u'),
   ('V','v'),('W','w'),('X','x'),('Y','y'),('Z','z')]

/-- ASCII `str.lower` on one character. -/
def lcChar (c : Char) : Char :=
  ((ucLcPairs.find? (fun p => p.1 == c)).map Prod.snd).getD c

/-- ASCII `str.upper` on one character. -/
def ucChar (c : Char) : Char :=
  ((ucLcPairs.find? (fun p => p.2 == c)).map Prod.fst).getD c

def lowsList : List Char :=
  ['a','b','c','d','e','f','g','h','i','j','k','l','m',
   'n','o','p','q','r','s','t','u','v','w','x','y','z']

def upsList : List Char :=
  ['A','B','C','D','E','F','G','H','I','J','K','L','M',
   'N','O','P','Q','R','S','T','U','V','W','X','Y','Z']

/-- Python `str.strip()` on a character list: drop leading and trailing
whitespace. -/
def pyStripList (l : List Char) : List Char :=
  ((l.dropWhile isPyWS).reverse.dropWhile isPyWS).reverse

def pyStrip (s : String) : String := ⟨pyStripList s.data⟩

/-- Python `str.lower()` (ASCII fragment). -/
def lowerStr (s : String) : String := ⟨s.data.map lcChar⟩

/-- Embeds `pat` is a prefix of `l` (Python `str.startswith`). -/
def isStartOf : List Char → List Char → Bool
  | [], _ => true
  | _ :: _, [] => false
  | p :: ps, c :: cs => (p == c) && isStartOf ps cs

/-- Case-insensitive prefix test (ASCII), used for `re.IGNORECASE` literals. -/
def isStartOfCI : List Char → List Char → Bool
  | [], _ => true
  | _ :: _, [] => false
  | p :: ps, c :: cs => (lcChar p == lcChar c) && isStartOfCI ps cs

/-- Embeds `pat` occurs as a contiguous substring of `l` (Python `in`). -/
def hasSub (l pat : List Char) : Bool :=
  isStartOf pat l ||
    (match l with
     | [] => false
     | _ :: t => hasSub t pat)

/-- Python `pat in s` (substring containment). -/
def strContains (s pat : String) : Bool := hasSub s.data pat.data

/-- Python `s.startswith(pat)`. -/
def strStartsWith (s pat : String) : Bool := isStartOf pat.data s.data

/-- Python `s.endswith(pat)`. -/
def strEndsWith (s pat : String) : Bool :=
  isStartOf pat.data.reverse s.data.reverse

/-- Python slicing `s[n:]`. -/
def strDrop (s : String) (n : Nat) : String := ⟨s.data.drop n⟩

/-- Embeds `re.sub(r'\s+', ' ', ·)` scanning state: the Bool records whether the
previous input character was whitespace (i.e. a collapsed run is open). -/
def collapseWSAux : Bool → List Char → List Char
  | _, [] => []
  | prevWS, c :: cs =>
    if isPyWS c then
      if prevWS then collapseWSAux true cs
      else ' ' :: collapseWSAux true cs
    else c :: collapseWSAux false cs

def collapseWS (l : List Char) : List Char := collapseWSAux false l

/-- Python `str.title()` (ASCII fragment): a letter preceded by a letter is
lowercased, a letter preceded by a non-letter (or at the start) is
uppercased; the Bool is "previous character was cased". -/
def pyTitleAux : Bool → List Char → List Char
  | _, [] => []
  | prev, c :: cs =>
    if isAsciiAlpha c then
      (if prev then lcChar c else ucChar c) :: pyTitleAux true cs
    else c :: pyTitleAux false cs

def pyTitle (l : List Char) : List Char := pyTitleAux false l

/-- The characters removed by `re.sub(r'[*_`#]', '', ·)` in `_clean_title`
(the third one is the backtick, written by code point). -/
def mdRemovedChars : List Char := ['*', '_', Char.ofNat 96, '#']

/-- One step domain of `re.sub(r'<[^>]+>', '', ·)`: fuelled left-to-right
scan; at a `<` the regex matches iff at least one non-`>` character is
followed by a `>`, and the whole tag is deleted, scanning resuming after
the `>`; otherwise the `<` is kept and scanning moves one character on.
The fuel is initialised to the list length, which always suffices. -/
def removeTagsF : Nat → List Char → List Char
  | 0, l => l
  | _ + 1, [] => []
  | fuel + 1, c :: cs =>
    if c == '<' then
      match cs.dropWhile (fun x => x != '>') with
      | '>' :: rest2 =>
        if (cs.takeWhile (fun x => x != '>')).isEmpty then
          c :: removeTagsF fuel cs
        else removeTagsF fuel rest2
      | _ => c :: removeTagsF fuel cs
    else c :: removeTagsF fuel cs

def removeTags (l : List Char) : List Char := removeTagsF l.length l

def httpLit : List Char := ['h','t','t','p',':','/','/']

def httpsLit : List Char := ['h','t','t','p','s',':','/','/']

/-- The effective character class of the URL regex in `_clean_title`
(`[a-zA-Z]`, `[0-9]`, the range `[$-_]`, `@.&+`, `!*\(),`, and `%hh`; all
of which collapse to the code-point set below). -/
def urlChar (c : Char) : Bool :=
  (36 ≤ c.toNat && c.toNat ≤ 95) || (97 ≤ c.toNat && c.toNat ≤ 122) || c == '!'

/-- Embeds `re.search` step for `http[s]?://`: greedy optional `s`, so a
position matches iff it starts with `https://` (8 chars) or `http://`
(7 chars); returns the remainder after the scheme. -/
def httpMatchAt (l : List Char) : Option (List Char) :=
  if isStartOf httpsLit l then some (l.drop 8)
  else if isStartOf httpLit l then some (l.drop 7)
  else none

/-- Fuelled `re.sub(r'http[s]?://(...)+', '', ·)`: at each position, if the
scheme matches and at least one `urlChar` follows, delete the maximal run;
otherwise keep the character and move on. -/
def stripURLsF : Nat → List Char → List Char
  | 0, l => l
  | _ + 1, [] => []
  | fuel + 1, c :: cs =>
    match httpMatchAt (c :: cs) with
    | some r =>
      if (r.takeWhile urlChar).isEmpty then c :: stripURLsF fuel cs
      else stripURLsF fuel (r.dropWhile urlChar)
    | none => c :: stripURLsF fuel cs

def stripURLs (l : List Char) : List Char := stripURLsF l.length l

def dotsLit : List Char := ['.', '.', '.']

/-- Embeds `IntelligentScraper._clean_title`, character-list level: collapse
whitespace on the stripped title, remove markdown characters, remove HTML
tags, remove URLs, title-case, truncate to 97 chars plus `...` when longer
than 100, and strip. -/
def cleanTitleL (l : List Char) : List Char :=
  let l1 := collapseWS (pyStripList l)
  let l2 := l1.filter (fun c => !(mdRemovedChars.contains c))
  let l3 := removeTags l2
  let l4 := stripURLs l3
  let l5 := pyTitle l4
  let l6 := if 100 < l5.length then l5.take 97 ++ dotsLit else l5
  pyStripList l6

def clean_title (s : String) : String := ⟨cleanTitleL s.data⟩

/-- Python `text.split('\n')` (keeps empty segments). -/
def splitLinesAux : List Char → List Char → List (List Char)
  | acc, [] => [acc.reverse]
  | acc, c :: cs =>
    if c == '\n' then acc.reverse :: splitLinesAux [] cs
    else splitLinesAux (c :: acc) cs

def splitLines (l : List Char) : List (List Char) := splitLinesAux [] l

/-- Python `str.split()` with no argument: split on whitespace runs,
dropping empty words. -/
def pySplitAux : List Char → List Char → List (List Char)
  | acc, [] => if acc.isEmpty then [] else [acc.reverse]
  | acc, c :: cs =>
    if isPyWS c then
      if acc.isEmpty then pySplitAux [] cs
      else acc.reverse :: pySplitAux [] cs
    else pySplitAux (c :: acc) cs

def pySplitWords (l : List Char) : List (List Char) := pySplitAux [] l

/-- Python `str.isupper()` (ASCII fragment): at least one cased character
and no lowercase character. -/
def pyIsUpper (l : List Char) : Bool :=
  l.any isAsciiAlpha && l.all (fun c => !isAsciiLower c)

/-- One line of `_text_to_markdown`: strip, drop if empty, short all-caps
line becomes a level-2 heading, short line ending in `:` becomes a level-3
heading, otherwise kept as-is. -/
def mdLine (l : List Char) : Option (List Char) :=
  let s := pyStripList l
  if s.isEmpty then none
  else if s.length < 100 && pyIsUpper s then some ('#' :: '#' :: ' ' :: s)
  else if s.length < 80 && (s.getLast? == some ':') then
    some ('#' :: '#' :: '#' :: ' ' :: s)
  else some s

/-- Embeds `BlogExtractor._text_to_markdown` / `PDFExtractor._text_to_markdown`:
split on newlines, transform each non-empty line, join with blank lines. -/
def text_to_markdown (t : String) : String :=
  ⟨List.intercalate ['\n', '\n'] ((splitLines t.data).filterMap mdLine)⟩

/-!  Title inference (`IntelligentScraper._extract_meaningful_title` and
its helpers).  The specific regular expressions of the source are embedded
directly, with `re.search`'s leftmost-match and lazy/greedy backtracking
semantics spelled out per pattern. -/

/-- Embeds `re.search(r'^#{n}\s+(.+)$', line)` on a stripped, newline-free line:
exactly `n` hashes (the next character must not extend the run for the
shorter patterns, which the caller tries in order), at least one
whitespace character, and a non-empty remainder, which is the group. -/
def matchHashHeader (n : Nat) (line : List Char) : Option (List Char) :=
  if line.take n = List.replicate n '#' then
    let rest := line.drop n
    let ws := rest.takeWhile isPyWS
    let body := rest.dropWhile isPyWS
    if ws.isEmpty || body.isEmpty then none else some body
  else none

/-- Lazy `(.+?)` before a closing literal: the shortest non-empty prefix
whose remainder starts (case-insensitively) with `close`. -/
def lazyUntil (close : List Char) : List Char → Option (List Char)
  | [] => none
  | c :: cs =>
    if isStartOfCI close cs then some [c]
    else (lazyUntil close cs).map (fun t => c :: t)

/-- Try `<h{d}[^>]*>(.+?)</h{d}>` (IGNORECASE) anchored at this position:
`<`, `h` (either case), the digit, the greedy non-`>` run, `>`, then the
lazy body up to the closing tag. -/
def matchTagAt (d : Char) (l : List Char) : Option (List Char) :=
  match l with
  | '<' :: c1 :: c2 :: rest =>
    if lcChar c1 == 'h' && c2 == d then
      match rest.dropWhile (fun x => x != '>') with
      | '>' :: body => lazyUntil ['<', '/', 'h', d, '>'] body
      | _ => none
    else none
  | _ => none

/-- Embeds `re.search` for the h-tag pattern: leftmost position wins. -/
def findTag (d : Char) : List Char → Option (List Char)
  | [] => none
  | c :: cs => matchTagAt d (c :: cs) <|> findTag d cs

/-- Try `"key"\s*:\s*"([^"]+)"` (IGNORECASE) anchored at this position. -/
def jsonFieldAt (key : List Char) (l : List Char) : Option (List Char) :=
  match l with
  | '"' :: rest =>
    if isStartOfCI key rest then
      match (rest.drop key.length) with
      | '"' :: r2 =>
        match r2.dropWhile isPyWS with
        | ':' :: r4 =>
          match r4.dropWhile isPyWS with
          | '"' :: r6 =>
            let run := r6.takeWhile (fun x => x != '"')
            if run.isEmpty || (r6.dropWhile (fun x => x != '"')).isEmpty
            then none else some run
          | _ => none
        | _ => none
      | _ => none
    else none
  | _ => none

/-- Embeds `re.search` for a quoted JSON-style field: leftmost position wins. -/
def jsonField (key : List Char) : List Char → Option (List Char)
  | [] => none
  | c :: cs => jsonFieldAt key (c :: cs) <|> jsonField key cs

/-- The shared acceptance step of strategies 1 and 2 of
`_extract_title_from_content`: strip the captured group, keep it only when
`5 < len < 200`, and return it through `_clean_title`. -/
def acceptCand (r : Option (List Char)) : Option String :=
  match r with
  | none => none
  | some g =>
    if 5 < (pyStripList g).length && (pyStripList g).length < 200 then
      some (clean_title ⟨pyStripList g⟩)
    else none

/-- The five header patterns of strategy 1, tried in source order on one
stripped line. -/
def tryHeaderPatterns (line : List Char) : Option String :=
  acceptCand (matchHashHeader 1 line) <|>
  acceptCand (matchHashHeader 2 line) <|>
  acceptCand (matchHashHeader 3 line) <|>
  acceptCand (findTag '1' line) <|>
  acceptCand (findTag '2' line)

def firstSome {α β : Type} (f : α → Option β) : List α → Option β
  | [] => none
  | x :: xs => f x <|> firstSome f xs

def fenceLit : List Char := List.replicate 3 (Char.ofNat 96)

/-- Strategy 3 of `_extract_title_from_content`: a stripped line that is
non-empty, does not start with `#`, `*`, `-` or a code fence, and has
length strictly between 10 and 150, returned through `_clean_title`. -/
def meaningfulLine (s : List Char) : Option String :=
  if !s.isEmpty && !isStartOf ['#'] s && !isStartOf ['*'] s &&
     !isStartOf ['-'] s && !isStartOf fenceLit s &&
     10 < s.length && s.length < 150
  then some (clean_title ⟨s⟩) else none

def keyTitle : List Char := ['t','i','t','l','e']

def keyName : List Char := ['n','a','m','e']

def keyHeading : List Char := ['h','e','a','d','i','n','g']

/-- Embeds `IntelligentScraper._extract_title_from_content`: markdown/HTML headers
in the first 10 lines, then embedded JSON-style title fields anywhere,
then the first meaningful line among the first 20. -/
def extract_title_from_content (content : String) : Option String :=
  firstSome (fun l => tryHeaderPatterns (pyStripList l))
    ((splitLines content.data).take 10) <|>
  firstSome (fun key => acceptCand (jsonField key content.data))
    [keyTitle, keyName, keyHeading] <|>
  firstSome (fun l => meaningfulLine (pyStripList l))
    ((splitLines content.data).take 20)

def isWordChar (c : Char) : Bool :=
  isAsciiAlpha c || isDigitCh c || c == '_'

/-- Embeds `re.search(r'r/([a-zA-Z0-9_]+)', request_lower)`: leftmost `r/`
followed by at least one word character; the greedy run is the group. -/
def findSubreddit : List Char → Option (List Char)
  | [] => none
  | c :: cs =>
    (match c, cs with
     | 'r', '/' :: rest =>
       let run := rest.takeWhile isWordChar
       if run.isEmpty then none else some run
     | _, _ => none) <|> findSubreddit cs

/-- The tail alternation `(?:\s+and|\s*$)` of the Quora pattern: either at
least one whitespace character followed by the literal `and`, or a
whitespace-only remainder ending the string. -/
def quoraTailOk (l : List Char) : Bool :=
  (!(l.takeWhile isPyWS).isEmpty &&
     isStartOf ['a','n','d'] (l.dropWhile isPyWS)) ||
  l.all isPyWS

/-- Lazy `([^a]+?)` before the Quora tail: shortest non-empty prefix of
non-`a` characters whose remainder satisfies the tail alternation. -/
def lazyNonAQuora : List Char → Option (List Char)
  | [] => none
  | c :: cs =>
    if c == 'a' then none
    else if quoraTailOk cs then some [c]
    else (lazyNonAQuora cs).map (fun t => c :: t)

/-- Backtracking over the greedy `\s+` of the Quora pattern: try the
largest whitespace run first, then shorter ones. -/
def quoraTryWS : Nat → List Char → Option (List Char)
  | 0, _ => none
  | k + 1, rest =>
    match lazyNonAQuora (rest.drop (k + 1)) with
    | some g => some g
    | none => quoraTryWS k rest

/-- The part of `quora\s+([^a]+?)(?:\s+and|\s*$)` after the literal. -/
def quoraAfter (rest : List Char) : Option (List Char) :=
  let kmax := (rest.takeWhile isPyWS).length
  if kmax == 0 then none else quoraTryWS kmax rest

/-- Lazy `([^a]+?)` before `\s*$`: shortest non-empty prefix of non-`a`
characters with a whitespace-only remainder. -/
def lazyNonAEnd : List Char → Option (List Char)
  | [] => none
  | c :: cs =>
    if c == 'a' then none
    else if cs.all isPyWS then some [c]
    else (lazyNonAEnd cs).map (fun t => c :: t)

/-- Backtracking over the greedy `\s+` before `([^a]+?)\s*$`. -/
def forTryWS : Nat → List Char → Option (List Char)
  | 0, _ => none
  | k + 1, rest =>
    match lazyNonAEnd (rest.drop (k + 1)) with
    | some g => some g
    | none => forTryWS k rest

/-- Embeds `for\s+([^a]+?)\s*$` anchored after the literal `for`. -/
def forAfter (rest : List Char) : Option (List Char) :=
  let kmax := (rest.takeWhile isPyWS).length
  if kmax == 0 then none else forTryWS kmax rest

/-- The lazy `.*?for...` part: scan forward (never across a newline, since
DOTALL is off) for the literal `for` whose continuation matches. -/
def scanForLit : List Char → Option (List Char)
  | [] => none
  | c :: cs =>
    (if isStartOf ['f','o','r'] (c :: cs) then forAfter ((c :: cs).drop 3)
     else none) <|>
    (if c == '\n' then none else scanForLit cs)

/-- Embeds `re.search` driver for a pattern starting with a literal: try each
occurrence of the literal left to right; at each, run the continuation. -/
def scanLitThen (lit : List Char) (after : List Char → Option (List Char)) :
    List Char → Option (List Char)
  | [] => none
  | c :: cs =>
    (if isStartOf lit (c :: cs) then after ((c :: cs).drop lit.length)
     else none) <|> scanLitThen lit after cs

def stopWordsList : List String :=
  ["go", "to", "and", "get", "the", "top", "posts", "from", "for", "about"]

/-- The generic fallback at the end of `_create_title_from_request`:
if the request has more than 3 words, keep up to the first 6 words that
are longer than 2 characters and not stop-words, join the first 4 with
spaces and title-case; otherwise (or when nothing survives) clean the raw
request. -/
def genericRequestTitle (request : String) : String :=
  let words := pySplitWords request.data
  if 3 < words.length then
    let mw := (words.take 6).filter
      (fun w => 2 < w.length && !(stopWordsList.contains ⟨w.map lcChar⟩))
    if mw.isEmpty then clean_title request
    else ⟨pyTitle (List.intercalate [' '] (mw.take 4))⟩
  else clean_title request

/-- Embeds `IntelligentScraper._create_title_from_request`: domain templates in
source order (Reddit, Quora, Medium, Wikipedia, Stack Overflow, Hacker
News); a keyword hit whose inner pattern fails falls through to the
generic fallback, skipping the remaining templates. -/
def create_title_from_request (request : String) : String :=
  let rl := (lowerStr request).data
  if hasSub rl ['r','e','d','d','i','t'] then
    match findSubreddit rl with
    | some sub => "Top Posts from r/" ++ ⟨sub⟩
    | none => genericRequestTitle request
  else if hasSub rl ['q','u','o','r','a'] then
    match scanLitThen ['q','u','o','r','a'] quoraAfter rl with
    | some g => "Quora: " ++ ⟨pyTitle (pyStripList g)⟩
    | none => genericRequestTitle request
  else if hasSub rl ['m','e','d','i','u','m'] then
    match scanLitThen ['s','e','a','r','c','h'] scanForLit rl with
    | some g => "Medium Articles: " ++ ⟨pyTitle (pyStripList g)⟩
    | none => genericRequestTitle request
  else if hasSub rl ['w','i','k','i','p','e','d','i','a'] then
    match scanLitThen ['w','i','k','i','p','e','d','i','a'] scanForLit rl with
    | some g => "Wikipedia: " ++ ⟨pyTitle (pyStripList g)⟩
    | none => genericRequestTitle request
  else if hasSub rl "stack overflow".data || hasSub rl "stackoverflow".data
  then "Stack Overflow Questions"
  else if hasSub rl "hacker news".data || hasSub rl ['h','n'] then
    "Hacker News Top Stories"
  else genericRequestTitle request

/-- Embeds `IntelligentScraper._extract_meaningful_title`: title from content if
any strategy fires, otherwise a title derived from the request. -/
def extract_meaningful_title (content request : String) : String :=
  match extract_title_from_content content with
  | some t => t
  | none => create_title_from_request request

/-!  Request/URL classification (`IntelligentScraper`). -/

/-- The single-page pattern list of `_fallback_scraping_decision`, in
source order; every pattern is tested by Python substring containment. -/
def singlePagePatterns : List String :=
  ["/post/", "/article/", "/entry/", "/story/", "/blog/",
   "/2024/", "/2023/", "/2022/", "/2021/", "/2020/",
   ".html", ".php", ".aspx", ".jsp",
   "/page/", "/single/", "/view/",
   "/how-to-", "/guide-", "/tutorial-", "/learn-",
   "/getting-started", "/introduction", "/overview"]

/-- The collection pattern list of `_fallback_scraping_decision`, in
source order; also tested by substring containment, so the `$` characters
are literal characters, not anchors. -/
def collectionPatterns : List String :=
  ["/blog$", "/news$", "/docs$", "/articles$",
   "/category/", "/tag/", "/topic/",
   "/archive/", "/index$", "/home$",
   "/search", "/filter", "/browse"]

def matchesSinglePage (url : String) : Bool :=
  singlePagePatterns.any (fun p => strContains (lowerStr url) p)

def matchesCollection (url : String) : Bool :=
  collectionPatterns.any (fun p => strContains (lowerStr url) p)

/-- Python `url.count('/')` on the raw URL. -/
def slashCount (url : String) : Nat := url.data.count '/'

/-- Embeds `IntelligentScraper._fallback_scraping_decision`: single-page patterns
first, then collection patterns, then the slash-depth tie-break. -/
def fallback_scraping_decision (url : String) : String :=
  if matchesSinglePage url then "scrape"
  else if matchesCollection url then "crawl"
  else if 4 ≤ slashCount url then "scrape"
  else "crawl"

def crawlLit : List Char := ['c','r','a','w','l',' ']

/-- Embeds `IntelligentScraper.is_crawl_request`: the lowered, stripped request
starts with the literal `crawl `. -/
def is_crawl_request (request : String) : Bool :=
  isStartOf crawlLit (pyStripList (lowerStr request).data)

/-- Embeds `IntelligentScraper.extract_url_from_crawl_request`: after the same
recognition test, take the raw request minus its first 6 characters,
strip it, and accept it iff it starts with `http://`, `https://` or
`www.`. -/
def extract_url_from_crawl_request (request : String) : Option String :=
  if is_crawl_request request then
    if strStartsWith (pyStrip (strDrop request 6)) "http://" ||
       strStartsWith (pyStrip (strDrop request 6)) "https://" ||
       strStartsWith (pyStrip (strDrop request 6)) "www."
    then some (pyStrip (strDrop request 6)) else none
  else none

def isDomainChar (c : Char) : Bool :=
  isAsciiAlpha c || isDigitCh c || c == '-'

def tldList : List String := ["com", "org", "net", "edu", "io", "co", "dev"]

/-- Embeds `re.search(r'^[a-zA-Z0-9-]+\.(com|org|net|edu|io|co|dev)$', s)`:
one anchored label, a dot, and exactly one of the listed TLDs. -/
def isBareDomain (s : List Char) : Bool :=
  let run := s.takeWhile isDomainChar
  let rest := s.dropWhile isDomainChar
  !run.isEmpty &&
    (match rest with
     | '.' :: tld => tldList.any (fun t => tld = t.data)
     | _ => false)

/-- The shared URL-pattern test of `is_natural_language_request` and
`_is_url`: `^https?://`, `^www\.` or a bare known-TLD domain, each tried
against the stripped text. -/
def matchesUrlPattern (s : String) : Bool :=
  let t := pyStrip s
  strStartsWith t "http://" || strStartsWith t "https://" ||
  strStartsWith t "www." || isBareDomain t.data

def nlIndicators : List String :=
  ["go to", "visit", "scrape", "find", "search", "get", "extract",
   "second", "third", "first", "last", "post", "article", "page"]

/-- Embeds `IntelligentScraper.is_natural_language_request`: false for URL-like
strings, else true iff any indicator keyword occurs in the lowered
request. -/
def is_natural_language_request (request : String) : Bool :=
  if matchesUrlPattern request then false
  else nlIndicators.any (fun i => strContains (lowerStr request) i)

/-- Embeds `IntelligentScraper._is_url`. -/
def is_url (text : String) : Bool := matchesUrlPattern text

def postIndicators : List String :=
  ["/blog/", "/posts/", "/articles/", "/news/",
   "/202", "/2023/", "/2024/", "/2025/",
   "/jan/", "/feb/", "/mar/", "/apr/", "/may/", "/jun/",
   "/jul/", "/aug/", "/sep/", "/oct/", "/nov/", "/dec/",
   "post-", "article-", "blog-",
   ".html", ".php", ".aspx"]

/-- Embeds `IntelligentScraper._is_likely_blog`: post indicators (substring
containment) veto; then blog-homepage indicators, where the `$`-suffixed
ones are applied with `re.search` and hence are genuine end anchors. -/
def is_likely_blog (url : String) : Bool :=
  let u := lowerStr url
  if postIndicators.any (fun p => strContains u p) then false
  else if strEndsWith u "/blog" || strEndsWith u "/posts" ||
          strEndsWith u "/articles" || strEndsWith u "/news" ||
          strContains u "medium.com" || strContains u "substack.com" ||
          strContains u "wordpress.com"
  then true
  else false

/-- The four handlers `process_request` can dispatch to. -/
inductive Handler : Type
  | natLang : Handler
  | crawl : Handler
  | intelligentUrl : Handler
  | direct : Handler
deriving DecidableEq, Repr

/-- The dispatch logic of `IntelligentScraper.process_request`: natural
language first, then crawl commands, then URL-shaped requests to the
intelligent path, everything else to `handle_direct_url`. -/
def process_request_route (request : String) : Handler :=
  if is_natural_language_request request then Handler.natLang
  else if is_crawl_request request then Handler.crawl
  else if is_url request then Handler.intelligentUrl
  else Handler.direct

/-!  The knowledge-item record and the orchestrated direct-URL path. -/

/-- The uniform output record.  `content` is an `Option` because the
structured strategy stores the result of a second, independent markdown
extraction, which Python may bind to `None`. -/
structure KnowledgeItem where
  title : String
  content : Option String
  content_type : String
  source_url : String
  author : String
  user_id : String
deriving DecidableEq, Repr

structure KBExport where
  team_id : String
  items : List KnowledgeItem
deriving DecidableEq, Repr

/-- Embeds `THTScraper.export_to_knowledgebase_format` (without the optional file
write). -/
def export_to_knowledgebase_format (teamId : String)
    (items : List KnowledgeItem) : KBExport :=
  { team_id := teamId, items := items }

/-- Embeds `THTScraper.scrape_urls`: per-URL extraction, keeping successes in
order; the per-URL extractor is the collaborator-backed cascade. -/
def scrape_urls (extract : String → Option KnowledgeItem)
    (urls : List String) : List KnowledgeItem :=
  urls.filterMap extract

/-- Embeds `IntelligentScraper.handle_direct_url`: PDF paths to the PDF scraper,
likely blog homepages to the blog scraper, everything else to a one-URL
`scrape_urls`; each result is wrapped in the export format.  The two
scraper calls of the first branches are collaborator-backed whole-source
operations and enter as functions. -/
def handle_direct_url (teamId url : String) (maxItems : Nat)
    (extract : String → Option KnowledgeItem)
    (pdfItems blogItems : String → List KnowledgeItem) : KBExport :=
  if strEndsWith url ".pdf" || strContains (lowerStr url) "pdf" then
    export_to_knowledgebase_format teamId (pdfItems url)
  else if is_likely_blog url then
    export_to_knowledgebase_format teamId (blogItems url)
  else
    export_to_knowledgebase_format teamId (scrape_urls extract [url])

/-!  The extraction cascade (`BlogExtractor._extract_with_requests`).
All library calls on one fetched page are gathered into a `PageData`
record of collaborator outputs; the cascade's own control flow and length
gates are the embedded logic. -/

/-- Collaborator outputs for one URL/page.  `none` models a library call
that returned `None` or raised inside the strategy's own `try` block. -/
structure PageData where
  /-- The page URL. -/
  url : String
  /-- Embeds `response.raise_for_status()` succeeded. -/
  fetchOk : Bool
  /-- Embeds `trafilatura.extract(html, include_formatting=True,
  include_links=True)` — called identically by the gate and by
  `_parse_with_trafilatura`, hence one field. -/
  trafExtract : Option String
  /-- Embeds `trafilatura.extract(html, output_format='markdown')`. -/
  trafMarkdown : Option String
  /-- Embeds `trafilatura.extract_metadata(html, url).title`. -/
  trafMetaTitle : Option String
  /-- Embeds `trafilatura.extract_metadata(html, url).author`. -/
  trafMetaAuthor : Option String
  /-- Embeds `soup.find('title')` text, when the element exists. -/
  soupTitle : Option String
  /-- Embeds `soup.find('h1')` text, when the element exists. -/
  soupH1 : Option String
  /-- First hit of the author selectors, when one exists. -/
  soupAuthor : Option String
  /-- Embeds `readability.Document(html).title()`. -/
  readTitle : String
  /-- Embeds `readability.Document(html).summary()`. -/
  readSummary : Option String
  /-- Embeds `markdownify.md` of the summary. -/
  readMarkdown : String
  /-- Embeds `newspaper.Article` title. -/
  newsTitle : String
  /-- Embeds `newspaper.Article` text. -/
  newsText : Option String
  /-- Embeds `newspaper.Article` authors. -/
  newsAuthors : List String
  /-- Per content-region selector hit, in selector order: the region's
  `get_text()` (used by the `> 200` check) and its
  `get_text(separator='\n', strip=True)` (used for output). -/
  manualRegions : List (String × String)
  /-- The same two texts for `soup.find('body')`, when a body exists. -/
  bodyText : Option (String × String)
deriving Repr, DecidableEq

/-- Embeds `BlogExtractor._extract_title_from_html`: title element text stripped,
else h1 text stripped, else `"Untitled"`. -/
def extract_title_from_html (pd : PageData) : String :=
  match pd.soupTitle with
  | some t => pyStrip t
  | none =>
    match pd.soupH1 with
    | some h => pyStrip h
    | none => "Untitled"

/-- Embeds `BlogExtractor._extract_author_from_html`: first selector hit's text
stripped, else the empty string. -/
def extract_author_from_html (pd : PageData) : String :=
  match pd.soupAuthor with
  | some a => pyStrip a
  | none => ""

/-- Embeds `BlogExtractor._parse_with_trafilatura`: reject when the extraction is
`None`, empty or under 100 stripped characters; the emitted content is the
separate markdown extraction. -/
def parse_with_trafilatura (pd : PageData) : Option KnowledgeItem :=
  match pd.trafExtract with
  | none => none
  | some c =>
    if (pyStrip c).length < 100 then none
    else some
      { title :=
          match pd.trafMetaTitle with
          | some t => if t ≠ "" then t else extract_title_from_html pd
          | none => extract_title_from_html pd,
        content := pd.trafMarkdown,
        content_type := "blog",
        source_url := pd.url,
        author :=
          match pd.trafMetaAuthor with
          | some a => if a ≠ "" then a else ""
          | none => "",
        user_id := "" }

/-- Embeds `BlogExtractor._parse_with_readability`: reject an empty or sub-100
stripped summary; the emitted content is the markdownified summary. -/
def parse_with_readability (pd : PageData) : Option KnowledgeItem :=
  match pd.readSummary with
  | none => none
  | some c =>
    if c = "" ∨ (pyStrip c).length < 100 then none
    else some
      { title := pd.readTitle,
        content := some pd.readMarkdown,
        content_type := "blog",
        source_url := pd.url,
        author := extract_author_from_html pd,
        user_id := "" }

/-- Embeds `BlogExtractor._parse_with_newspaper`: reject empty or sub-100
stripped article text; the emitted content is the repo's own
text-to-markdown rendering of the text. -/
def parse_with_newspaper (pd : PageData) : Option KnowledgeItem :=
  match pd.newsText with
  | none => none
  | some t =>
    if t = "" ∨ (pyStrip t).length < 100 then none
    else some
      { title := pd.newsTitle,
        content := some (text_to_markdown t),
        content_type := "blog",
        source_url := pd.url,
        author := pd.newsAuthors.headD "",
        user_id := "" }

/-- The selector loop of `_parse_manually`: first region whose `get_text`
strips to more than 200 characters. -/
def pick_content_region : List (String × String) → Option (String × String)
  | [] => none
  | r :: rest =>
    if 200 < (pyStrip r.1).length then some r else pick_content_region rest

/-- Embeds `BlogExtractor._parse_manually`: first qualifying content region, else
the whole body; no minimum length is enforced on the output. -/
def parse_manually (pd : PageData) : Option KnowledgeItem :=
  match
    (match pick_content_region pd.manualRegions with
     | some r => some r
     | none => pd.bodyText) with
  | none => none
  | some r => some
      { title := extract_title_from_html pd,
        content := some (text_to_markdown r.2),
        content_type := "blog",
        source_url := pd.url,
        author := extract_author_from_html pd,
        user_id := "" }

/-- Strategies 2–4 of the cascade in order: readability, newspaper,
manual. -/
def cascade_rest (pd : PageData) : Option KnowledgeItem :=
  match parse_with_readability pd with
  | some it => some it
  | none =>
    match parse_with_newspaper pd with
    | some it => some it
    | none => parse_manually pd

/-- Embeds `BlogExtractor._extract_with_requests`: after a successful fetch, the
trafilatura gate `len(extracted.strip()) > 200` routes to the structured
parser (whose own result is returned unconditionally); otherwise the rest
of the cascade runs. -/
def extract_with_requests (pd : PageData) : Option KnowledgeItem :=
  if pd.fetchOk = false then none
  else
    match pd.trafExtract with
    | some ex =>
      if 200 < (pyStrip ex).length then parse_with_trafilatura pd
      else cascade_rest pd
    | none => cascade_rest pd

/-!  The PDF extractor (`PDFExtractor._extract_with_pypdf`; the PyPDF2
fallback has literally identical chunking logic).  Page texts enter as a
list of collaborator strings. -/

/-- Python `range(0, total, 5)`: the chunk start offsets. -/
def rangeStep5 (total : Nat) : List Nat :=
  (List.range ((total + 4) / 5)).map (fun i => i * 5)

/-- The concatenated text of pages `[cs, ce)`, each page followed by a
blank line, as in the source's accumulation loop. -/
def chunkText (pages : List String) (cs ce : Nat) : String :=
  String.join (((pages.drop cs).take (ce - cs)).map (fun p => p ++ "\n\n"))

/-- Embeds `PDFExtractor._extract_with_pypdf`: fixed chunk size 5; chunks whose
text strips to empty are skipped; each kept chunk becomes one item titled
with its 1-based page range. -/
def extract_with_pypdf (pages : List String) (title author filePath : String) :
    List KnowledgeItem :=
  (rangeStep5 pages.length).filterMap (fun cs =>
    if pyStrip (chunkText pages cs (min (cs + 5) pages.length)) ≠ "" then
      some { title := title ++ " - Pages " ++ toString (cs + 1) ++ "-" ++
               toString (min (cs + 5) pages.length),
             content := some (text_to_markdown
               (chunkText pages cs (min (cs + 5) pages.length))),
             content_type := "book",
             source_url := "file://" ++ filePath,
             author := author,
             user_id := "" }
    else none)

/-- The 1-based page ranges of the chunks of a `total`-page document. -/
def pdfChunkRanges (total : Nat) : List (Nat × Nat) :=
  (rangeStep5 total).map (fun cs => (cs + 1, min (cs + 5) total))

/-- The chunk ranges from chunk index `j` on, for the range-coverage
induction. -/
def chunkRangesFrom (j k total : Nat) : List (Nat × Nat) :=
  (List.range k).map
    (fun i => (5 * (j + i) + 1, min (5 * (j + i) + 5) total))

/-- Embeds `rangesOk rs start total` checks that `rs` is a sequence of ranges
that starts at `start`, is contiguous and ascending (each range begins
right after its predecessor ends), has every range of width at most 5 and
of width exactly 5 except possibly the last, and ends exactly at `total`
— i.e. the ranges are disjoint and their union is `[start, total]`. -/
def rangesOk : List (Nat × Nat) → Nat → Nat → Bool
  | [], start, total => start == total + 1
  | (a, b) :: rest, start, total =>
    (a == start) && decide (a ≤ b) && decide (b + 1 ≤ a + 5) &&
    (rest.isEmpty || b + 1 == a + 5) && rangesOk rest (b + 1) total

/-!  URL discovery (`URLDiscoverer`).  Harvested hrefs (already resolved
against their page, which `urljoin` does) enter as collaborator lists;
`none` models a fetch/parse failure caught by the per-function handler. -/

def skipPatterns : List String :=
  ["/tag/", "/category/", "/author/", "/page/", "/search",
   "/about", "/contact", "/privacy", "/terms", "/feed"]

def skipExtensions : List String :=
  ["pdf", "doc", "docx", "jpg", "jpeg", "png", "gif"]

/-- Embeds `URLDiscoverer._is_blog_post_url`: the deny-list patterns are applied
with `re.search(..., re.IGNORECASE)`; the first ten are literal substrings
and the last is an end-anchored extension alternation. -/
def is_blog_post_url (url : String) : Bool :=
  let u := lowerStr url
  !(skipPatterns.any (fun p => strContains u p) ||
    skipExtensions.any (fun e => strEndsWith u ("." ++ e)))

/-- Embeds `URLDiscoverer._discover_pagination`: on a fetch failure, just the
base URL; otherwise the base URL followed by each harvested pagination
href that is new while the list is still below `maxPages`, the whole list
finally truncated to `maxPages`. -/
def discover_pagination (baseUrl : String) (maxPages : Nat)
    (hrefs : Option (List String)) : List String :=
  match hrefs with
  | none => [baseUrl]
  | some hs =>
    (hs.foldl
      (fun acc h =>
        if h ∉ acc ∧ acc.length < maxPages then acc ++ [h] else acc)
      [baseUrl]).take maxPages

/-- Embeds `URLDiscoverer._extract_blog_urls_from_page`: harvested links filtered
by the deny-list, returned as a duplicate-free list (`list(set(urls))`);
`none` models the caught per-page failure, yielding `[]`. -/
def extract_blog_urls_from_page (links : Option (List String)) :
    List String :=
  match links with
  | none => []
  | some ls => (ls.filter is_blog_post_url).dedup

/-- Embeds `URLDiscoverer.discover_blog_urls`: pagination discovery, per-page
harvesting, and set-accumulation of the results (`list(urls)`). -/
def discover_blog_urls (baseUrl : String) (maxPages : Nat)
    (pagHrefs : Option (List String))
    (pageLinks : String → Option (List String)) : List String :=
  ((discover_pagination baseUrl maxPages pagHrefs).flatMap
    (fun p => extract_blog_urls_from_page (pageLinks p))).dedup

/-!  Auxiliary predicates for the title-cleanup analysis. -/

/-- Whitespace-normal form, scanning with "previous character was a
space": every whitespace character is a plain space, no two spaces are
adjacent, and the string does not end in a space. -/
def wsNormAux : Bool → List Char → Bool
  | prevSp, [] => !prevSp
  | prevSp, c :: cs =>
    if c == ' ' then !prevSp && wsNormAux true cs
    else !isPyWS c && wsNormAux false cs

/-- Whitespace-normal: `wsNormAux` plus no leading space. -/
def wsNorm (l : List Char) : Bool :=
  match l with
  | [] => true
  | c :: _ => !isPyWS c && wsNormAux false l

/-- Embeds `titled b l` holds iff `pyTitleAux b l = l`, checked character by
character with the same cased-predecessor flag. -/
def titled : Bool → List Char → Bool
  | _, [] => true
  | b, c :: cs =>
    if isAsciiAlpha c then
      ((if b then lcChar c else ucChar c) == c) && titled true cs
    else titled false cs

/-- The characters whose removal by the cleanup pass can merge previously
separated text: the markdown-removal set plus the tag opener and the `/`
required by any URL-scheme match. -/
def cleanupSensitiveChars : List Char :=
  ['*', '_', Char.ofNat 96, '#', '<', '/']

/-- Page data on which every strategy of the cascade fails except the
manual fallback, whose body text is empty: the page has a body element
whose extracted text is the empty string. -/
def pdManualEmpty : PageData :=
  { url := "http://x", fetchOk := true,
    trafExtract := none, trafMarkdown := none,
    trafMetaTitle := none, trafMetaAuthor := none,
    soupTitle := none, soupH1 := none, soupAuthor := none,
    readTitle := "", readSummary := none, readMarkdown := "",
    newsTitle := "", newsText := none, newsAuthors := [],
    manualRegions := [], bodyText := some ("", "") }

/-- Page data whose structured extraction strips to exactly 200
characters and on which every later strategy fails. -/
def pdGateBoundary : PageData :=
  { url := "http://x", fetchOk := true,
    trafExtract := some ⟨List.replicate 200 'b'⟩, trafMarkdown := none,
    trafMetaTitle := none, trafMetaAuthor := none,
    soupTitle := none, soupH1 := none, soupAuthor := none,
    readTitle := "", readSummary := none, readMarkdown := "",
    newsTitle := "", newsText := none, newsAuthors := [],
    manualRegions := [], bodyText := none }

/-- Page data on which the readability strategy succeeds with a 120
character summary. -/
def pdReadabilityOk : PageData :=
  { url := "http://x", fetchOk := true,
    trafExtract := none, trafMarkdown := none,
    trafMetaTitle := none, trafMetaAuthor := none,
    soupTitle := none, soupH1 := none, soupAuthor := none,
    readTitle := "T", readSummary := some ⟨List.replicate 120 'c'⟩,
    readMarkdown := "m",
    newsTitle := "", newsText := none, newsAuthors := [],
    manualRegions := [], bodyText := none }

/-- The long Reddit-style request used against the title-inference
claim: an over-long subreddit name. -/
def longRedditRequest : String := "reddit r/" ++ ⟨List.replicate 120 'a'⟩

/-!  ## Helper lemmas -/

theorem length_dropWhile_le_self (p : Char → Bool) (l : List Char) :
    (l.dropWhile p).length ≤ l.length := by
  induction l with
  | nil => simp
  | cons c cs ih =>
    cases hp : p c with
    | true =>
      simp only [List.dropWhile_cons, hp, if_true, List.length_cons]
      exact Nat.le_succ_of_le ih
    | false => simp [List.dropWhile_cons, hp]

theorem pyStripList_length_le (l : List Char) :
    (pyStripList l).length ≤ l.length := by
  unfold pyStripList
  calc ((l.dropWhile isPyWS).reverse.dropWhile isPyWS).reverse.length
      = ((l.dropWhile isPyWS).reverse.dropWhile isPyWS).length := by
        simp
    _ ≤ (l.dropWhile isPyWS).reverse.length :=
        length_dropWhile_le_self _ _
    _ = (l.dropWhile isPyWS).length := by simp
    _ ≤ l.length := length_dropWhile_le_self _ _

theorem mem_of_mem_dropWhile {c : Char} {p : Char → Bool} {l : List Char}
    (h : c ∈ l.dropWhile p) : c ∈ l := by
  have hs := List.takeWhile_append_dropWhile (p := p) (l := l)
  rw [← hs]
  exact List.mem_append_right _ h

theorem mem_of_mem_pyStripList {c : Char} {l : List Char}
    (h : c ∈ pyStripList l) : c ∈ l := by
  unfold pyStripList at h
  rw [List.mem_reverse] at h
  have h2 := mem_of_mem_dropWhile h
  rw [List.mem_reverse] at h2
  exact mem_of_mem_dropWhile h2

theorem mem_collapseWSAux {c : Char} :
    ∀ (b : Bool) (l : List Char), c ∈ collapseWSAux b l → c ∈ l ∨ c = ' '
  | _, [], h => by simp [collapseWSAux] at h
  | b, x :: xs, h => by
    unfold collapseWSAux at h
    by_cases hws : isPyWS x
    · simp only [hws, if_true] at h
      by_cases hb : b
      · simp only [hb, if_true] at h
        rcases mem_collapseWSAux true xs h with h' | h'
        · exact Or.inl (List.mem_cons_of_mem _ h')
        · exact Or.inr h'
      · simp only [hb, if_false] at h
        rcases List.mem_cons.mp h with h' | h'
        · exact Or.inr h'
        · rcases mem_collapseWSAux true xs h' with h'' | h''
          · exact Or.inl (List.mem_cons_of_mem _ h'')
          · exact Or.inr h''
    · simp only [hws, if_false] at h
      rcases List.mem_cons.mp h with h' | h'
      · exact Or.inl (h' ▸ List.mem_cons_self _ _)
      · rcases mem_collapseWSAux false xs h' with h'' | h''
        · exact Or.inl (List.mem_cons_of_mem _ h'')
        · exact Or.inr h''

theorem isStartOf_mem :
    ∀ (pat l : List Char), isStartOf pat l = true → ∀ c ∈ pat, c ∈ l
  | [], _, _, c, hc => by simp at hc
  | _ :: _, [], h, _, _ => by simp [isStartOf] at h
  | p :: ps, x :: xs, h, c, hc => by
    unfold isStartOf at h
    rw [Bool.and_eq_true] at h
    have hpx : p = x := by
      have := h.1; simpa using this
    rcases List.mem_cons.mp hc with h' | h'
    · subst h'; exact hpx ▸ List.mem_cons_self _ _
    · exact List.mem_cons_of_mem _ (isStartOf_mem ps xs h.2 c h')

theorem removeTagsF_id :
    ∀ (fuel : Nat) (l : List Char), l.length ≤ fuel →
      (∀ c ∈ l, c ≠ '<') → removeTagsF fuel l = l
  | 0, _, _, _ => rfl
  | _ + 1, [], _, _ => rfl
  | fuel + 1, c :: cs, h, hno => by
    have hc : (c == '<') = false := by
      simpa using hno c (List.mem_cons_self _ _)
    have hrec := removeTagsF_id fuel cs
      (by simpa using Nat.le_of_succ_le_succ h)
      (fun x hx => hno x (List.mem_cons_of_mem _ hx))
    unfold removeTagsF
    simp [hc, hrec]

theorem httpMatchAt_has_slash {l r : List Char}
    (h : httpMatchAt l = some r) : '/' ∈ l := by
  unfold httpMatchAt at h
  by_cases h1 : isStartOf httpsLit l = true
  · exact isStartOf_mem _ _ h1 '/' (by decide)
  · simp only [h1, if_false] at h
    by_cases h2 : isStartOf httpLit l = true
    · exact isStartOf_mem _ _ h2 '/' (by decide)
    · simp [h2] at h

theorem stripURLsF_id :
    ∀ (fuel : Nat) (l : List Char), l.length ≤ fuel →
      (∀ c ∈ l, c ≠ '/') → stripURLsF fuel l = l
  | 0, _, _, _ => rfl
  | _ + 1, [], _, _ => rfl
  | fuel + 1, c :: cs, h, hno => by
    have hm : httpMatchAt (c :: cs) = none := by
      cases hmm : httpMatchAt (c :: cs) with
      | none => rfl
      | some r => exact absurd rfl (hno '/' (httpMatchAt_has_slash hmm))
    have hrec := stripURLsF_id fuel cs
      (by simpa using Nat.le_of_succ_le_succ h)
      (fun x hx => hno x (List.mem_cons_of_mem _ hx))
    unfold stripURLsF
    simp [hm, hrec]

theorem lcChar_shape (c : Char) : lcChar c = c ∨ lcChar c ∈ lowsList := by
  unfold lcChar
  cases hf : ucLcPairs.find? (fun p => p.1 == c) with
  | none => simp
  | some pr =>
    right
    have hmem : pr ∈ ucLcPairs := List.mem_of_find?_eq_some hf
    have hall : ∀ q ∈ ucLcPairs, q.2 ∈ lowsList := by decide
    simpa using hall pr hmem

theorem ucChar_shape (c : Char) : ucChar c = c ∨ ucChar c ∈ upsList := by
  unfold ucChar
  cases hf : ucLcPairs.find? (fun p => p.2 == c) with
  | none => simp
  | some pr =>
    right
    have hmem : pr ∈ ucLcPairs := List.mem_of_find?_eq_some hf
    have hall : ∀ q ∈ ucLcPairs, q.1 ∈ upsList := by decide
    simpa using hall pr hmem

theorem alpha_not_ws {c : Char} (h : isAsciiAlpha c = true) :
    isPyWS c = false := by
  simp only [isAsciiAlpha, Bool.or_eq_true, Bool.and_eq_true,
    decide_eq_true_eq] at h
  simp only [isPyWS, Bool.or_eq_false_iff, beq_eq_false_iff_ne, ne_eq]
  omega

theorem lows_alpha : ∀ c ∈ lowsList, isAsciiAlpha c = true := by decide

theorem ups_alpha : ∀ c ∈ upsList, isAsciiAlpha c = true := by decide

theorem lows_lc_fix : ∀ c ∈ lowsList, lcChar c = c := by decide

theorem ups_uc_fix : ∀ c ∈ upsList, ucChar c = c := by decide

theorem lc_lc (c : Char) : lcChar (lcChar c) = lcChar c := by
  rcases lcChar_shape c with h | h
  · rw [h, h]
  · exact lows_lc_fix _ h

theorem uc_uc (c : Char) : ucChar (ucChar c) = ucChar c := by
  rcases ucChar_shape c with h | h
  · rw [h, h]
  · exact ups_uc_fix _ h

theorem alpha_lcChar {c : Char} (h : isAsciiAlpha c = true) :
    isAsciiAlpha (lcChar c) = true := by
  rcases lcChar_shape c with h' | h'
  · rw [h']; exact h
  · exact lows_alpha _ h'

theorem alpha_ucChar {c : Char} (h : isAsciiAlpha c = true) :
    isAsciiAlpha (ucChar c) = true := by
  rcases ucChar_shape c with h' | h'
  · rw [h']; exact h
  · exact ups_alpha _ h'

theorem not_ws_ne_space {c : Char} (h : isPyWS c = false) :
    (c == ' ') = false := by
  rcases Bool.eq_false_or_eq_true (c == ' ') with h' | h'
  · exfalso
    have hc : c = ' ' := by simpa using h'
    rw [hc] at h
    simp [isPyWS] at h
  · exact h'

theorem wsNormAux_last :
    ∀ (l : List Char) (b : Bool), wsNormAux b l = true →
      ∀ c, l.getLast? = some c → isPyWS c = false
  | [], _, _, c, hc => by simp at hc
  | [x], b, h, c, hc => by
    have hcx : x = c := by simpa using hc
    by_cases hx : (x == ' ') = true
    · simp [wsNormAux, hx] at h
    · have h' : (!isPyWS x && wsNormAux false []) = true := by
        have : wsNormAux b [x] =
            if (x == ' ') = true then !b && wsNormAux true []
            else !isPyWS x && wsNormAux false [] := rfl
        rw [this, if_neg hx] at h
        exact h
      rw [Bool.and_eq_true] at h'
      rw [← hcx]
      simpa using h'.1
  | x :: y :: ys, b, h, c, hc => by
    rw [List.getLast?_cons_cons] at hc
    have hun : wsNormAux b (x :: y :: ys) =
        if (x == ' ') = true then !b && wsNormAux true (y :: ys)
        else !isPyWS x && wsNormAux false (y :: ys) := rfl
    rw [hun] at h
    by_cases hx : (x == ' ') = true
    · rw [if_pos hx, Bool.and_eq_true] at h
      exact wsNormAux_last (y :: ys) true h.2 c hc
    · rw [if_neg hx, Bool.and_eq_true] at h
      exact wsNormAux_last (y :: ys) false h.2 c hc

theorem wsNormAux_collapseWSAux :
    ∀ (l : List Char) (b : Bool),
      (∀ c, l.getLast? = some c → isPyWS c = false) →
      (b = true → l ≠ []) →
      wsNormAux b (collapseWSAux b l) = true
  | [], b, _, hb => by
    cases b with
    | false => simp [collapseWSAux, wsNormAux]
    | true => exact absurd rfl (hb rfl)
  | x :: xs, b, hlast, _ => by
    have hlast' : ∀ c, xs.getLast? = some c → isPyWS c = false := by
      intro c hc
      apply hlast
      cases xs with
      | nil => simp at hc
      | cons y ys => rw [List.getLast?_cons_cons]; exact hc
    by_cases hx : isPyWS x = true
    · have hxs : xs ≠ [] := by
        intro he
        subst he
        have := hlast x (by simp)
        rw [hx] at this
        simp at this
      have hrec := wsNormAux_collapseWSAux xs true hlast' (fun _ => hxs)
      cases b with
      | true => simpa [collapseWSAux, hx] using hrec
      | false => simp [collapseWSAux, hx, wsNormAux, hrec]
    · have hxf : isPyWS x = false := by simpa using hx
      have hxsp : (x == ' ') = false := not_ws_ne_space hxf
      have hrec := wsNormAux_collapseWSAux xs false hlast'
        (fun h => absurd h Bool.false_ne_true)
      simp [collapseWSAux, hxf, wsNormAux, hxsp, hrec]

theorem pyStripList_last_not_ws (l : List Char) :
    ∀ c, (pyStripList l).getLast? = some c → isPyWS c = false := by
  intro c hc
  unfold pyStripList at hc
  rw [List.getLast?_reverse] at hc
  have h := List.head?_dropWhile_not isPyWS (l.dropWhile isPyWS).reverse
  rw [hc] at h
  exact h

theorem pyStripList_head_not_ws (l : List Char) :
    ∀ c, (pyStripList l).head? = some c → isPyWS c = false := by
  intro c hc
  unfold pyStripList at hc
  rw [List.head?_reverse] at hc
  -- the inner dropWhile is a suffix of `(l.dropWhile isPyWS).reverse`,
  -- whose last element is the head of `l.dropWhile isPyWS`
  set A := (l.dropWhile isPyWS).reverse with hA
  have hsplit := List.takeWhile_append_dropWhile (p := isPyWS) (l := A)
  have hgl : (A.dropWhile isPyWS).getLast? = some c := hc
  have hne : A.dropWhile isPyWS ≠ [] := by
    intro he; rw [he] at hgl; simp at hgl
  have hAlast : A.getLast? = some c := by
    rw [← hsplit, List.getLast?_append, hgl]
    rfl
  rw [hA, List.getLast?_reverse] at hAlast
  have h := List.head?_dropWhile_not isPyWS l
  rw [hAlast] at h
  exact h

theorem wsNorm_collapse_pyStrip (l : List Char) :
    wsNorm (collapseWS (pyStripList l)) = true := by
  cases hs : pyStripList l with
  | nil => simp [collapseWS, collapseWSAux, wsNorm]
  | cons x xs =>
    have hx : isPyWS x = false := by
      apply pyStripList_head_not_ws l
      rw [hs]; rfl
    have hlast' : ∀ c, xs.getLast? = some c → isPyWS c = false := by
      intro c hc
      apply pyStripList_last_not_ws l
      rw [hs]
      cases xs with
      | nil => simp at hc
      | cons y ys => rw [List.getLast?_cons_cons]; exact hc
    have hrec := wsNormAux_collapseWSAux xs false hlast'
      (fun h => absurd h Bool.false_ne_true)
    unfold collapseWS collapseWSAux
    simp only [hx, if_false]
    unfold wsNorm
    simp [hx, wsNormAux, not_ws_ne_space hx, hrec]

theorem collapseWSAux_fix :
    ∀ (l : List Char) (b : Bool), wsNormAux b l = true →
      collapseWSAux b l = l
  | [], _, _ => rfl
  | x :: xs, b, h => by
    have hun : wsNormAux b (x :: xs) =
        if (x == ' ') = true then !b && wsNormAux true xs
        else !isPyWS x && wsNormAux false xs := rfl
    rw [hun] at h
    by_cases hx : (x == ' ') = true
    · rw [if_pos hx, Bool.and_eq_true] at h
      have hxx : x = ' ' := by simpa using hx
      have hb : b = false := by
        cases b with
        | false => rfl
        | true => simp at h
      subst hb
      rw [hxx]
      have hrec := collapseWSAux_fix xs true h.2
      have hws : isPyWS ' ' = true := by decide
      simp [collapseWSAux, hws, hrec]
    · rw [if_neg hx, Bool.and_eq_true] at h
      have hxf : isPyWS x = false := by simpa using h.1
      have hrec := collapseWSAux_fix xs false h.2
      simp [collapseWSAux, hxf, hrec]

theorem collapseWS_fix {l : List Char} (h : wsNorm l = true) :
    collapseWS l = l := by
  cases l with
  | nil => rfl
  | cons x xs =>
    have hun : wsNorm (x :: xs) =
        (!isPyWS x && wsNormAux false (x :: xs)) := rfl
    rw [hun, Bool.and_eq_true] at h
    exact collapseWSAux_fix _ _ h.2

theorem dropWhile_eq_self_of_head {p : Char → Bool} {l : List Char}
    (h : ∀ c, l.head? = some c → p c = false) : l.dropWhile p = l := by
  cases l with
  | nil => rfl
  | cons x xs =>
    have := h x rfl
    simp [List.dropWhile_cons, this]

theorem pyStripList_fix {l : List Char} (h : wsNorm l = true) :
    pyStripList l = l := by
  have hhead : ∀ c, l.head? = some c → isPyWS c = false := by
    intro c hc
    cases l with
    | nil => simp at hc
    | cons x xs =>
      have hun : wsNorm (x :: xs) =
          (!isPyWS x && wsNormAux false (x :: xs)) := rfl
      rw [hun, Bool.and_eq_true] at h
      have hcx : x = c := by simpa using hc
      rw [← hcx]
      simpa using h.1
  have hlast : ∀ c, l.getLast? = some c → isPyWS c = false := by
    intro c hc
    cases l with
    | nil => simp at hc
    | cons x xs =>
      have hun : wsNorm (x :: xs) =
          (!isPyWS x && wsNormAux false (x :: xs)) := rfl
      rw [hun, Bool.and_eq_true] at h
      exact wsNormAux_last _ _ h.2 c hc
  unfold pyStripList
  rw [dropWhile_eq_self_of_head hhead]
  have : l.reverse.dropWhile isPyWS = l.reverse := by
    apply dropWhile_eq_self_of_head
    intro c hc
    rw [List.head?_reverse] at hc
    exact hlast c hc
  rw [this, List.reverse_reverse]

theorem pyTitleAux_cons (b : Bool) (c : Char) (cs : List Char) :
    pyTitleAux b (c :: cs) =
      if isAsciiAlpha c = true then
        (if b then lcChar c else ucChar c) :: pyTitleAux true cs
      else c :: pyTitleAux false cs := rfl

theorem titled_cons (b : Bool) (c : Char) (cs : List Char) :
    titled b (c :: cs) =
      if isAsciiAlpha c = true then
        ((if b then lcChar c else ucChar c) == c) && titled true cs
      else titled false cs := rfl

theorem wsNormAux_cons (b : Bool) (c : Char) (cs : List Char) :
    wsNormAux b (c :: cs) =
      if (c == ' ') = true then !b && wsNormAux true cs
      else !isPyWS c && wsNormAux false cs := rfl

theorem wsNormAux_pyTitleAux :
    ∀ (l : List Char) (b b' : Bool), wsNormAux b l = true →
      wsNormAux b (pyTitleAux b' l) = true
  | [], _, _, h => h
  | c :: cs, b, b', h => by
    rw [wsNormAux_cons] at h
    rw [pyTitleAux_cons]
    by_cases ha : isAsciiAlpha c = true
    · rw [if_pos ha, wsNormAux_cons]
      have hcw : isPyWS c = false := alpha_not_ws ha
      rw [if_neg (by simp [not_ws_ne_space hcw]), Bool.and_eq_true] at h
      have he : isAsciiAlpha (if b' then lcChar c else ucChar c) = true := by
        cases b' with
        | true => simpa using alpha_lcChar ha
        | false => simpa using alpha_ucChar ha
      have hew : isPyWS (if b' then lcChar c else ucChar c) = false :=
        alpha_not_ws he
      rw [if_neg (by simp [not_ws_ne_space hew])]
      rw [Bool.and_eq_true]
      exact ⟨by simp [hew], wsNormAux_pyTitleAux cs false true h.2⟩
    · rw [if_neg ha, wsNormAux_cons]
      by_cases hsp : (c == ' ') = true
      · rw [if_pos hsp] at h ⊢
        rw [Bool.and_eq_true] at h ⊢
        exact ⟨h.1, wsNormAux_pyTitleAux cs true false h.2⟩
      · rw [if_neg hsp] at h ⊢
        rw [Bool.and_eq_true] at h ⊢
        exact ⟨h.1, wsNormAux_pyTitleAux cs false false h.2⟩

theorem titled_iff :
    ∀ (l : List Char) (b : Bool), titled b l = true ↔ pyTitleAux b l = l
  | [], b => by simp [titled, pyTitleAux]
  | c :: cs, b => by
    rw [titled_cons, pyTitleAux_cons]
    by_cases ha : isAsciiAlpha c = true
    · rw [if_pos ha, if_pos ha, Bool.and_eq_true, List.cons.injEq]
      constructor
      · rintro ⟨h1, h2⟩
        exact ⟨by simpa using h1, (titled_iff cs true).mp h2⟩
      · rintro ⟨h1, h2⟩
        exact ⟨by simpa using h1, (titled_iff cs true).mpr h2⟩
    · rw [if_neg ha, if_neg ha, List.cons.injEq]
      constructor
      · intro h
        exact ⟨rfl, (titled_iff cs false).mp h⟩
      · intro h
        exact (titled_iff cs false).mpr h.2

theorem titled_pyTitleAux :
    ∀ (l : List Char) (b : Bool), titled b (pyTitleAux b l) = true
  | [], _ => rfl
  | c :: cs, b => by
    rw [pyTitleAux_cons]
    by_cases ha : isAsciiAlpha c = true
    · rw [if_pos ha, titled_cons]
      have he : isAsciiAlpha (if b then lcChar c else ucChar c) = true := by
        cases b with
        | true => simpa using alpha_lcChar ha
        | false => simpa using alpha_ucChar ha
      rw [if_pos he, Bool.and_eq_true]
      refine ⟨?_, titled_pyTitleAux cs true⟩
      cases b with
      | true => simp [lc_lc]
      | false => simp [uc_uc]
    · rw [if_neg ha, titled_cons, if_neg ha]
      exact titled_pyTitleAux cs false

theorem titled_take :
    ∀ (l : List Char) (b : Bool) (n : Nat), titled b l = true →
      titled b (l.take n) = true
  | [], _, _, _ => by simp [titled]
  | _ :: _, _, 0, _ => rfl
  | c :: cs, b, n + 1, h => by
    rw [titled_cons] at h
    rw [List.take_succ_cons, titled_cons]
    by_cases ha : isAsciiAlpha c = true
    · rw [if_pos ha] at h ⊢
      rw [Bool.and_eq_true] at h ⊢
      exact ⟨h.1, titled_take cs true n h.2⟩
    · rw [if_neg ha] at h ⊢
      exact titled_take cs false n h

theorem titled_append :
    ∀ (l : List Char) (b : Bool) (m : List Char),
      titled b l = true → (∀ f, titled f m = true) →
      titled b (l ++ m) = true
  | [], b, m, _, hm => hm b
  | c :: cs, b, m, h, hm => by
    rw [titled_cons] at h
    rw [List.cons_append, titled_cons]
    by_cases ha : isAsciiAlpha c = true
    · rw [if_pos ha] at h ⊢
      rw [Bool.and_eq_true] at h ⊢
      exact ⟨h.1, titled_append cs true m h.2 hm⟩
    · rw [if_neg ha] at h ⊢
      exact titled_append cs false m h hm

theorem mem_pyTitleAux {c : Char} :
    ∀ (b : Bool) (l : List Char), c ∈ pyTitleAux b l →
      c ∈ l ∨ isAsciiAlpha c = true
  | _, [], h => by simp [pyTitleAux] at h
  | b, x :: xs, h => by
    rw [pyTitleAux_cons] at h
    by_cases ha : isAsciiAlpha x = true
    · rw [if_pos ha] at h
      rcases List.mem_cons.mp h with h' | h'
      · right
        subst h'
        cases b with
        | true => simpa using alpha_lcChar ha
        | false => simpa using alpha_ucChar ha
      · rcases mem_pyTitleAux true xs h' with h'' | h''
        · exact Or.inl (List.mem_cons_of_mem _ h'')
        · exact Or.inr h''
    · rw [if_neg ha] at h
      rcases List.mem_cons.mp h with h' | h'
      · exact Or.inl (h' ▸ List.mem_cons_self _ _)
      · rcases mem_pyTitleAux false xs h' with h'' | h''
        · exact Or.inl (List.mem_cons_of_mem _ h'')
        · exact Or.inr h''

theorem titled_dots : ∀ (f : Bool), titled f dotsLit = true := by decide

theorem wsNormAux_dots : ∀ (b : Bool), wsNormAux b dotsLit = true := by
  decide

theorem wsNormAux_take_dots :
    ∀ (l : List Char) (b : Bool) (n : Nat), wsNormAux b l = true →
      wsNormAux b (l.take n ++ dotsLit) = true
  | [], b, n, _ => by simpa using wsNormAux_dots b
  | _ :: _, b, 0, _ => by simpa using wsNormAux_dots b
  | c :: cs, b, n + 1, h => by
    rw [wsNormAux_cons] at h
    rw [List.take_succ_cons, List.cons_append, wsNormAux_cons]
    by_cases hsp : (c == ' ') = true
    · rw [if_pos hsp] at h ⊢
      rw [Bool.and_eq_true] at h ⊢
      exact ⟨h.1, wsNormAux_take_dots cs true n h.2⟩
    · rw [if_neg hsp] at h ⊢
      rw [Bool.and_eq_true] at h ⊢
      exact ⟨h.1, wsNormAux_take_dots cs false n h.2⟩

theorem cleanTitleL_unfold (l : List Char) :
    cleanTitleL l = pyStripList
      (if 100 < (pyTitle (stripURLs (removeTags
          ((collapseWS (pyStripList l)).filter
            (fun c => !(mdRemovedChars.contains c)))))).length
       then (pyTitle (stripURLs (removeTags
          ((collapseWS (pyStripList l)).filter
            (fun c => !(mdRemovedChars.contains c)))))).take 97 ++ dotsLit
       else pyTitle (stripURLs (removeTags
          ((collapseWS (pyStripList l)).filter
            (fun c => !(mdRemovedChars.contains c)))))) := rfl

theorem contains_eq_false_of_not_mem {a : Char} {l : List Char}
    (h : a ∉ l) : l.contains a = false := by
  rcases Bool.eq_false_or_eq_true (l.contains a) with hc | hc
  · rcases List.contains_iff_exists_mem_beq.mp hc with ⟨b, hb, hab⟩
    have hba : a = b := by simpa using hab
    exact absurd (hba ▸ hb) h
  · exact hc

theorem wsNorm_pyTitle {l : List Char} (h : wsNorm l = true) :
    wsNorm (pyTitle l) = true := by
  cases l with
  | nil => rfl
  | cons c cs =>
    have hun : wsNorm (c :: cs) =
        (!isPyWS c && wsNormAux false (c :: cs)) := rfl
    rw [hun, Bool.and_eq_true] at h
    have hout := wsNormAux_pyTitleAux (c :: cs) false false h.2
    show wsNorm (pyTitleAux false (c :: cs)) = true
    rw [pyTitleAux_cons] at hout ⊢
    by_cases ha : isAsciiAlpha c = true
    · rw [if_pos ha] at hout ⊢
      have he : isAsciiAlpha (if false then lcChar c else ucChar c) = true :=
        by simpa using alpha_ucChar ha
      have hun2 : wsNorm ((if false then lcChar c else ucChar c) ::
          pyTitleAux true cs) =
          (!isPyWS (if false then lcChar c else ucChar c) &&
            wsNormAux false ((if false then lcChar c else ucChar c) ::
              pyTitleAux true cs)) := rfl
      rw [hun2, Bool.and_eq_true]
      exact ⟨by simp [alpha_not_ws (alpha_ucChar ha)], hout⟩
    · rw [if_neg ha] at hout ⊢
      have hun2 : wsNorm (c :: pyTitleAux false cs) =
          (!isPyWS c && wsNormAux false (c :: pyTitleAux false cs)) := rfl
      rw [hun2, Bool.and_eq_true]
      exact ⟨h.1, hout⟩

theorem wsNorm_take_dots {l : List Char} (h : wsNorm l = true) :
    wsNorm (l.take 97 ++ dotsLit) = true := by
  cases l with
  | nil => decide
  | cons c cs =>
    have hun : wsNorm (c :: cs) =
        (!isPyWS c && wsNormAux false (c :: cs)) := rfl
    rw [hun, Bool.and_eq_true] at h
    have hout := wsNormAux_take_dots (c :: cs) false 97 h.2
    have hshape : (c :: cs).take 97 ++ dotsLit =
        c :: (cs.take 96 ++ dotsLit) := by
      rw [List.take_succ_cons, List.cons_append]
    rw [hshape] at hout ⊢
    have hun2 : wsNorm (c :: (cs.take 96 ++ dotsLit)) =
        (!isPyWS c && wsNormAux false (c :: (cs.take 96 ++ dotsLit))) := rfl
    rw [hun2, Bool.and_eq_true]
    exact ⟨h.1, hout⟩

/-- Everything the first cleanup pass guarantees about its own output,
for inputs free of the characters whose removal could re-join text. -/
theorem cleanTitleL_post {t : List Char}
    (hb : ∀ c ∈ t, c ∉ cleanupSensitiveChars) :
    wsNorm (cleanTitleL t) = true ∧
    titled false (cleanTitleL t) = true ∧
    (∀ c ∈ cleanTitleL t, c ∉ cleanupSensitiveChars) ∧
    (cleanTitleL t).length ≤ 100 := by
  -- stage 1: strip + collapse
  have h1 : wsNorm (collapseWS (pyStripList t)) = true :=
    wsNorm_collapse_pyStrip t
  have hmem1 : ∀ c ∈ collapseWS (pyStripList t),
      c ∉ cleanupSensitiveChars := by
    intro c hc
    rcases mem_collapseWSAux false (pyStripList t) hc with h' | h'
    · exact hb c (mem_of_mem_pyStripList h')
    · subst h'; decide
  -- stages 2-4 are the identity on such input
  have hfil : (collapseWS (pyStripList t)).filter
      (fun c => !(mdRemovedChars.contains c)) = collapseWS (pyStripList t) := by
    apply List.filter_eq_self.mpr
    intro c hc
    have hnm : c ∉ mdRemovedChars := by
      intro hmem
      apply hmem1 c hc
      have : ∀ x ∈ mdRemovedChars, x ∈ cleanupSensitiveChars := by decide
      exact this c hmem
    show (!(mdRemovedChars.contains c)) = true
    rw [contains_eq_false_of_not_mem hnm]
    rfl
  have htags : removeTags (collapseWS (pyStripList t)) =
      collapseWS (pyStripList t) := by
    apply removeTagsF_id _ _ (Nat.le_refl _)
    intro c hc he
    apply hmem1 c hc
    rw [he]; decide
  have hurls : stripURLs (collapseWS (pyStripList t)) =
      collapseWS (pyStripList t) := by
    apply stripURLsF_id _ _ (Nat.le_refl _)
    intro c hc he
    apply hmem1 c hc
    rw [he]; decide
  -- stage 5: title-case
  have h5 : wsNorm (pyTitle (collapseWS (pyStripList t))) = true :=
    wsNorm_pyTitle h1
  have ht5 : titled false (pyTitle (collapseWS (pyStripList t))) = true :=
    titled_pyTitleAux _ false
  have hmem5 : ∀ c ∈ pyTitle (collapseWS (pyStripList t)),
      c ∉ cleanupSensitiveChars := by
    intro c hc
    rcases mem_pyTitleAux false _ hc with h' | h'
    · exact hmem1 c h'
    · intro hmem
      have : ∀ x ∈ cleanupSensitiveChars, isAsciiAlpha x = false := by decide
      have h2 := this c hmem
      rw [h'] at h2
      simp at h2
  -- stage 6: truncation
  have key : cleanTitleL t = pyStripList
      (if 100 < (pyTitle (collapseWS (pyStripList t))).length
       then (pyTitle (collapseWS (pyStripList t))).take 97 ++ dotsLit
       else pyTitle (collapseWS (pyStripList t))) := by
    rw [cleanTitleL_unfold, hfil, htags, hurls]
  by_cases hlen : 100 < (pyTitle (collapseWS (pyStripList t))).length
  · rw [key, if_pos hlen]
    have h6 : wsNorm ((pyTitle (collapseWS (pyStripList t))).take 97 ++
        dotsLit) = true := wsNorm_take_dots h5
    rw [pyStripList_fix h6]
    refine ⟨h6, ?_, ?_, ?_⟩
    · exact titled_append _ false _ (titled_take _ false 97 ht5) titled_dots
    · intro c hc
      rcases List.mem_append.mp hc with h' | h'
      · exact hmem5 c (List.mem_of_mem_take h')
      · intro hmem
        have hdot : c = '.' := by
          have hall : ∀ x ∈ dotsLit, x = '.' := by decide
          exact hall c h'
        subst hdot
        revert hmem
        decide
    · rw [List.length_append, List.length_take]
      have : dotsLit.length = 3 := rfl
      omega
  · rw [key, if_neg hlen]
    rw [pyStripList_fix h5]
    exact ⟨h5, ht5, hmem5, by omega⟩

/-- A second cleanup pass is the identity on any output of the first. -/
theorem cleanTitleL_second_pass {u : List Char}
    (hws : wsNorm u = true) (ht : titled false u = true)
    (hmem : ∀ c ∈ u, c ∉ cleanupSensitiveChars)
    (hlen : u.length ≤ 100) :
    cleanTitleL u = u := by
  have hfil : (collapseWS (pyStripList u)).filter
      (fun c => !(mdRemovedChars.contains c)) = u := by
    rw [pyStripList_fix hws, collapseWS_fix hws]
    apply List.filter_eq_self.mpr
    intro c hc
    have hnm : c ∉ mdRemovedChars := by
      intro hm
      apply hmem c hc
      have : ∀ x ∈ mdRemovedChars, x ∈ cleanupSensitiveChars := by decide
      exact this c hm
    show (!(mdRemovedChars.contains c)) = true
    rw [contains_eq_false_of_not_mem hnm]
    rfl
  have htags : removeTags u = u := by
    apply removeTagsF_id _ _ (Nat.le_refl _)
    intro c hc he
    apply hmem c hc
    rw [he]; decide
  have hurls : stripURLs u = u := by
    apply stripURLsF_id _ _ (Nat.le_refl _)
    intro c hc he
    apply hmem c hc
    rw [he]; decide
  have htitle : pyTitle u = u := (titled_iff u false).mp ht
  rw [cleanTitleL_unfold, hfil, htags, hurls, htitle, if_neg (by omega)]
  exact pyStripList_fix hws

theorem strip_trunc_length_le (x : List Char) :
    (pyStripList (if 100 < x.length then x.take 97 ++ dotsLit else x)).length
      ≤ 100 := by
  by_cases h : 100 < x.length
  · rw [if_pos h]
    have h1 := pyStripList_length_le (x.take 97 ++ dotsLit)
    have h2 : (x.take 97 ++ dotsLit).length ≤ 100 := by
      rw [List.length_append, List.length_take]
      have hd : dotsLit.length = 3 := rfl
      omega
    omega
  · rw [if_neg h]
    have h1 := pyStripList_length_le x
    omega

theorem cleanTitleL_length_le (l : List Char) :
    (cleanTitleL l).length ≤ 100 := by
  rw [cleanTitleL_unfold]
  exact strip_trunc_length_le _

theorem clean_title_length_le (s : String) : (clean_title s).length ≤ 100 :=
  cleanTitleL_length_le s.data

theorem option_orElse_cases {β : Type} {a b : Option β} {t : β}
    (h : (a <|> b) = some t) : a = some t ∨ (a = none ∧ b = some t) := by
  cases a with
  | some v => left; simpa using h
  | none => right; exact ⟨rfl, by simpa using h⟩

theorem acceptCand_le {r : Option (List Char)} {t : String}
    (h : acceptCand r = some t) : t.length ≤ 100 := by
  cases r with
  | none => simp [acceptCand] at h
  | some g =>
    rw [show acceptCand (some g) =
        (if 5 < (pyStripList g).length && (pyStripList g).length < 200 then
          some (clean_title ⟨pyStripList g⟩) else none) from rfl] at h
    split at h
    · have ht : clean_title ⟨pyStripList g⟩ = t := by injection h
      rw [← ht]
      exact clean_title_length_le _
    · exact absurd h (by simp)

theorem meaningfulLine_le {s : List Char} {t : String}
    (h : meaningfulLine s = some t) : t.length ≤ 100 := by
  unfold meaningfulLine at h
  split at h
  · have ht : clean_title ⟨s⟩ = t := by injection h
    rw [← ht]
    exact clean_title_length_le _
  · exact absurd h (by simp)

theorem tryHeaderPatterns_le {line : List Char} {t : String}
    (h : tryHeaderPatterns line = some t) : t.length ≤ 100 := by
  unfold tryHeaderPatterns at h
  rcases option_orElse_cases h with h1 | ⟨_, h1⟩
  · exact acceptCand_le h1
  rcases option_orElse_cases h1 with h2 | ⟨_, h2⟩
  · exact acceptCand_le h2
  rcases option_orElse_cases h2 with h3 | ⟨_, h3⟩
  · exact acceptCand_le h3
  rcases option_orElse_cases h3 with h4 | ⟨_, h4⟩
  · exact acceptCand_le h4
  · exact acceptCand_le h4

theorem firstSome_forall {α β : Type} {f : α → Option β} {P : β → Prop}
    (hf : ∀ x t, f x = some t → P t) :
    ∀ (l : List α) (t : β), firstSome f l = some t → P t
  | [], _, h => by simp [firstSome] at h
  | x :: xs, t, h => by
    unfold firstSome at h
    rcases option_orElse_cases h with h' | h'
    · exact hf x t h'
    · exact firstSome_forall hf xs t h'.2

theorem extract_title_from_content_le {content t : String}
    (h : extract_title_from_content content = some t) : t.length ≤ 100 := by
  unfold extract_title_from_content at h
  rcases option_orElse_cases h with h1 | ⟨_, h1⟩
  · exact firstSome_forall (fun _ _ hx => tryHeaderPatterns_le hx) _ t h1
  rcases option_orElse_cases h1 with h2 | ⟨_, h2⟩
  · exact firstSome_forall (fun _ _ hx => acceptCand_le hx) _ t h2
  · exact firstSome_forall (fun _ _ hx => meaningfulLine_le hx) _ t h2

/-!  ## Claim theorems -/

/-- C6 counterexample: on an empty content string and a Reddit-style
request with a 120-character subreddit name, `_extract_meaningful_title`
returns the raw domain-template string `Top Posts from r/aaa…`, which is
longer than 100 characters and is not a fixed point of `_clean_title` —
so the final cleanup pass is not applied to every returned title, and the
result is not bounded by 100 characters. -/
theorem C6_counterexample :
    100 < (extract_meaningful_title "" longRedditRequest).length ∧
    extract_meaningful_title "" longRedditRequest ≠
      clean_title (extract_meaningful_title "" longRedditRequest) := by
  decide

/-- C6 (amended): the cleanup pass itself always produces a title of at
most 100 characters, and every title produced by the content-scanning
strategies of title inference has passed through the cleanup pass and is
therefore at most 100 characters; titles derived from the request by the
domain templates or the generic word filter are returned uncleaned and
carry no such bound (and the result can even be empty for an empty
request). -/
theorem C6_title_cleanup_bound (s content : String) :
    (clean_title s).length ≤ 100 ∧
    (∀ t, extract_title_from_content content = some t → t.length ≤ 100) :=
  ⟨clean_title_length_le s, fun _ ht => extract_title_from_content_le ht⟩

/-- C6 witness: the bound at a concrete cleaned title and at the title
extracted from a concrete markdown header. -/
theorem C6_witness :
    (clean_title "Some Draft Title").length ≤ 100 ∧
    "Hello World".length ≤ 100 :=
  ⟨(C6_title_cleanup_bound "Some Draft Title" "# Hello World").1,
   (C6_title_cleanup_bound "Some Draft Title" "# Hello World").2
     "Hello World" (by decide)⟩

/-- C7 counterexample: `_clean_title` is not idempotent.  On `"a * b"`
the first pass collapses whitespace before removing the `*`, leaving the
double space `"A  B"`; the second pass collapses it to `"A B"`. -/
theorem C7_counterexample :
    clean_title (clean_title "a * b") ≠ clean_title "a * b" := by decide

/-- C7 (amended): the cleanup pass is idempotent on every title that
contains none of the characters whose removal can re-join text — the
markdown-removal set `* _ ` #`, the tag opener `<`, and `/` (without
which no URL-scheme match exists).  On such input the first pass's
output is whitespace-normal, title-cased, at most 100 characters and
still free of those characters, and the second pass is the identity. -/
theorem C7_clean_title_idempotent (s : String)
    (h : ∀ c ∈ s.data, c ∉ cleanupSensitiveChars) :
    clean_title (clean_title s) = clean_title s := by
  have hpost := cleanTitleL_post h
  have hsec := cleanTitleL_second_pass hpost.1 hpost.2.1 hpost.2.2.1
    hpost.2.2.2
  show (⟨cleanTitleL (cleanTitleL s.data)⟩ : String) = ⟨cleanTitleL s.data⟩
  rw [hsec]

/-- C7 witness: idempotence at a concrete sensitive-character-free
title. -/
theorem C7_witness :
    (∀ c ∈ ("hello  world").data, c ∉ cleanupSensitiveChars) ∧
    clean_title (clean_title "hello  world") = clean_title "hello  world" :=
  ⟨by decide, C7_clean_title_idempotent "hello  world" (by decide)⟩

/-- C3: with the fallback tier forced, `_fallback_scraping_decision` is a
pure function of the URL string (the embedding is a total function, so
the first conjunct records determinism); the single-page list is checked
before the collection list, so any URL matching a single-page pattern —
in particular a URL matching patterns in both lists — is classified
`scrape`; and a URL matching neither list is classified by the
slash-count tie-break: `scrape` iff the raw URL contains at least four
`/` characters, else `crawl`. -/
theorem C3_fallback_decision (url : String) :
    fallback_scraping_decision url = fallback_scraping_decision url ∧
    (matchesSinglePage url = true →
      fallback_scraping_decision url = "scrape") ∧
    (matchesSinglePage url = false → matchesCollection url = false →
      fallback_scraping_decision url =
        if 4 ≤ slashCount url then "scrape" else "crawl") := by
  refine ⟨rfl, ?_, ?_⟩
  · intro h
    unfold fallback_scraping_decision
    rw [if_pos h]
  · intro h1 h2
    unfold fallback_scraping_decision
    rw [if_neg (by simp [h1]), if_neg (by simp [h2])]

/-- C3 witness: `https://example.com/tag/how-to-x` matches both lists and
resolves to `scrape`; `https://e.com` matches neither list and, with two
slashes, resolves to `crawl`. -/
theorem C3_witness :
    matchesSinglePage "https://example.com/tag/how-to-x" = true ∧
    matchesCollection "https://example.com/tag/how-to-x" = true ∧
    fallback_scraping_decision "https://example.com/tag/how-to-x" =
      "scrape" ∧
    fallback_scraping_decision "https://e.com" = "crawl" :=
  ⟨by decide, by decide,
   (C3_fallback_decision "https://example.com/tag/how-to-x").2.1 (by decide),
   by
    have h := (C3_fallback_decision "https://e.com").2.2 (by decide)
      (by decide)
    rw [h]
    decide⟩

/-- C4 (code-bug evidence): the collection patterns carry a literal `$`
and are tested by Python substring containment, so `/blog$` can never
match a real URL.  `https://example.com/blog` does not match the
collection list and is classified `crawl` only through the 3-slash
tie-break, while `https://example.com/a/b/blog` — which ends in `/blog`
and matches no single-page pattern — is classified `scrape` by the
≥4-slash tie-break, contradicting the claim (and the spec's intent,
which the sibling `_is_likely_blog` implements correctly with an
end-of-string regex). -/
theorem C4_collection_anchor_eval :
    matchesCollection "https://example.com/blog" = false ∧
    fallback_scraping_decision "https://example.com/blog" = "crawl" ∧
    matchesSinglePage "https://example.com/a/b/blog" = false ∧
    strEndsWith (lowerStr "https://example.com/a/b/blog") "/blog" = true ∧
    fallback_scraping_decision "https://example.com/a/b/blog" =
      "scrape" := by
  decide

/-- C8 counterexample: `is_crawl_request` recognises `"crawl hello"`
although the remainder `hello` is not URL-like — extraction rejects it —
so recognition is not an iff with a URL-like remainder. -/
theorem C8_counterexample :
    is_crawl_request "crawl hello" = true ∧
    extract_url_from_crawl_request "crawl hello" = none := by decide

/-- C8 (amended): recognition tests only the literal prefix `crawl ` on
the trimmed, case-folded request; URL validation happens solely in the
extraction step, which drops the first 6 raw characters, trims, and
requires an `http://`, `https://` or `www.` prefix.  Whenever extraction
returns a URL, the request was recognised and the URL carries one of
those prefixes; Scenario A — request `"crawl https://example.com/blog"`
recognised with extracted URL `"https://example.com/blog"` — holds. -/
theorem C8_crawl_command (r u : String)
    (h : extract_url_from_crawl_request r = some u) :
    is_crawl_request r = true ∧
    (strStartsWith u "http://" = true ∨ strStartsWith u "https://" = true ∨
      strStartsWith u "www." = true) ∧
    is_crawl_request "crawl https://example.com/blog" = true ∧
    extract_url_from_crawl_request "crawl https://example.com/blog" =
      some "https://example.com/blog" := by
  unfold extract_url_from_crawl_request at h
  by_cases hc : is_crawl_request r = true
  · rw [if_pos hc] at h
    refine ⟨hc, ?_, by decide, by decide⟩
    split at h
    next hs =>
      have hu : pyStrip (strDrop r 6) = u := by injection h
      rw [← hu]
      have hs' := hs
      simp only [Bool.or_eq_true] at hs'
      tauto
    next => exact absurd h (by simp)
  · rw [if_neg hc] at h
    exact absurd h (by simp)

/-- C8 witness: the amended theorem applied at Scenario A's request. -/
theorem C8_witness :
    is_crawl_request "crawl https://example.com/blog" = true ∧
    (strStartsWith "https://example.com/blog" "http://" = true ∨
     strStartsWith "https://example.com/blog" "https://" = true ∨
     strStartsWith "https://example.com/blog" "www." = true) :=
  ⟨(C8_crawl_command "crawl https://example.com/blog"
      "https://example.com/blog" (by decide)).1,
   (C8_crawl_command "crawl https://example.com/blog"
      "https://example.com/blog" (by decide)).2.1⟩

/-- C10: a request that matches no URL pattern, contains no
natural-language keyword and lacks the crawl prefix is routed by
`process_request` to the direct-URL handler; the handler's result is
always a well-formed export carrying the team id and an item list, and
when the request is neither PDF-like nor blog-like and per-URL
extraction fails, that item list is empty — no error result and no
exception. -/
theorem C10_direct_route (teamId request : String) (mi : Nat)
    (ext : String → Option KnowledgeItem)
    (pdfI blogI : String → List KnowledgeItem)
    (h1 : is_natural_language_request request = false)
    (h2 : is_crawl_request request = false)
    (h3 : is_url request = false) :
    process_request_route request = Handler.direct ∧
    (handle_direct_url teamId request mi ext pdfI blogI).team_id = teamId ∧
    (strEndsWith request ".pdf" = false →
     strContains (lowerStr request) "pdf" = false →
     is_likely_blog request = false → ext request = none →
     handle_direct_url teamId request mi ext pdfI blogI =
       { team_id := teamId, items := [] }) := by
  refine ⟨?_, ?_, ?_⟩
  · unfold process_request_route
    rw [if_neg (by simp [h1]), if_neg (by simp [h2]), if_neg (by simp [h3])]
  · unfold handle_direct_url export_to_knowledgebase_format
    split
    · rfl
    · split
      · rfl
      · rfl
  · intro h4 h5 h6 h7
    unfold handle_direct_url
    rw [if_neg (by simp [h4, h5]), if_neg (by simp [h6])]
    unfold export_to_knowledgebase_format scrape_urls
    simp [h7]

/-- C1 counterexample: on a page where trafilatura, readability and
newspaper all fail and the body's extracted text is empty, the cascade
emits an item whose content is the empty string — so emitted items are
not bounded below by 100 stripped characters, and an item with empty
content exists. -/
theorem C1_counterexample :
    extract_with_requests pdManualEmpty = some
      { title := "Untitled", content := some "", content_type := "blog",
        source_url := "http://x", author := "", user_id := "" } := by
  decide

/-- C1 (amended): the admission checks of the first three strategies hold
on the strings they test — an item returned by the trafilatura,
readability or newspaper parser implies the corresponding extracted text
stripped to at least 100 characters — but the emitted content is a
different, transformed string, the manual fallback enforces no minimum at
all, and titles are not validated. -/
theorem C1_cascade_guard_bounds (pd : PageData) :
    ((parse_with_trafilatura pd).isSome = true →
      ∃ c, pd.trafExtract = some c ∧ 100 ≤ (pyStrip c).length) ∧
    ((parse_with_readability pd).isSome = true →
      ∃ c, pd.readSummary = some c ∧ 100 ≤ (pyStrip c).length) ∧
    ((parse_with_newspaper pd).isSome = true →
      ∃ c, pd.newsText = some c ∧ 100 ≤ (pyStrip c).length) := by
  refine ⟨?_, ?_, ?_⟩
  · intro h
    cases he : pd.trafExtract with
    | none => simp [parse_with_trafilatura, he] at h
    | some c =>
      refine ⟨c, rfl, ?_⟩
      simp only [parse_with_trafilatura, he] at h
      by_cases hl : (pyStrip c).length < 100
      · rw [if_pos hl] at h
        simp at h
      · omega
  · intro h
    cases he : pd.readSummary with
    | none => simp [parse_with_readability, he] at h
    | some c =>
      refine ⟨c, rfl, ?_⟩
      simp only [parse_with_readability, he] at h
      by_cases hl : (c = "" ∨ (pyStrip c).length < 100)
      · rw [if_pos hl] at h
        simp at h
      · push_neg at hl
        have := hl.2
        omega
  · intro h
    cases he : pd.newsText with
    | none => simp [parse_with_newspaper, he] at h
    | some c =>
      refine ⟨c, rfl, ?_⟩
      simp only [parse_with_newspaper, he] at h
      by_cases hl : (c = "" ∨ (pyStrip c).length < 100)
      · rw [if_pos hl] at h
        simp at h
      · push_neg at hl
        have := hl.2
        omega

/-- C1 witness: the readability guard at a concrete page whose summary
strips to 120 characters. -/
theorem C1_witness :
    ∃ c, pdReadabilityOk.readSummary = some c ∧
      100 ≤ (pyStrip c).length :=
  (C1_cascade_guard_bounds pdReadabilityOk).2.1 (by decide)

/-- C2 counterexample: a page whose structured extraction strips to
exactly 200 characters is not accepted — the source gate is strictly
greater-than-200 — and with every later strategy failing the cascade
yields no item, refuting "accepted iff stripped content length is at
least 200". -/
theorem C2_counterexample :
    (pyStrip ⟨List.replicate 200 'b'⟩).length = 200 ∧
    pdGateBoundary.trafExtract = some ⟨List.replicate 200 'b'⟩ ∧
    extract_with_requests pdGateBoundary = none := by
  decide

/-- C2 (amended): after a successful fetch the cascade runs structured →
readability → newspaper → manual in that order; the structured candidate
is accepted iff its stripped length is strictly greater than 200 (in
which case the structured parser's item is returned), otherwise the rest
of the cascade runs, each failing strategy falling through to the next;
the cascade returns no item only when the fetch failed or every
remaining strategy returned none. -/
theorem C2_cascade_order (pd : PageData) :
    (pd.fetchOk = false → extract_with_requests pd = none) ∧
    (∀ ex, pd.fetchOk = true → pd.trafExtract = some ex →
      200 < (pyStrip ex).length →
      extract_with_requests pd = parse_with_trafilatura pd ∧
      (parse_with_trafilatura pd).isSome = true) ∧
    (pd.fetchOk = true →
      (∀ ex, pd.trafExtract = some ex → (pyStrip ex).length ≤ 200) →
      extract_with_requests pd = cascade_rest pd) ∧
    ((parse_with_readability pd).isSome = true →
      cascade_rest pd = parse_with_readability pd) ∧
    (parse_with_readability pd = none →
      (parse_with_newspaper pd).isSome = true →
      cascade_rest pd = parse_with_newspaper pd) ∧
    (parse_with_readability pd = none → parse_with_newspaper pd = none →
      cascade_rest pd = parse_manually pd) ∧
    (extract_with_requests pd = none →
      pd.fetchOk = false ∨
      (parse_with_readability pd = none ∧ parse_with_newspaper pd = none ∧
        parse_manually pd = none)) := by
  have hrest_some : (parse_with_readability pd).isSome = true →
      cascade_rest pd = parse_with_readability pd := by
    intro h
    cases hr : parse_with_readability pd with
    | none => rw [hr] at h; simp at h
    | some it => simp [cascade_rest, hr]
  have hrest_news : parse_with_readability pd = none →
      (parse_with_newspaper pd).isSome = true →
      cascade_rest pd = parse_with_newspaper pd := by
    intro hr h
    cases hn : parse_with_newspaper pd with
    | none => rw [hn] at h; simp at h
    | some it => simp [cascade_rest, hr, hn]
  have hrest_man : parse_with_readability pd = none →
      parse_with_newspaper pd = none →
      cascade_rest pd = parse_manually pd := by
    intro hr hn
    simp [cascade_rest, hr, hn]
  refine ⟨?_, ?_, ?_, hrest_some, hrest_news, hrest_man, ?_⟩
  · intro h
    unfold extract_with_requests
    rw [if_pos h]
  · intro ex hf he hgt
    constructor
    · unfold extract_with_requests
      rw [if_neg (by simp [hf])]
      simp only [he]
      rw [if_pos hgt]
    · simp only [parse_with_trafilatura, he]
      rw [if_neg (by omega)]
      rfl
  · intro hf hle
    unfold extract_with_requests
    rw [if_neg (by simp [hf])]
    cases he : pd.trafExtract with
    | none => rfl
    | some ex =>
      have hlen := hle ex he
      show (if 200 < (pyStrip ex).length then parse_with_trafilatura pd
        else cascade_rest pd) = cascade_rest pd
      rw [if_neg (by omega)]
  · intro h
    by_cases hf : pd.fetchOk = false
    · exact Or.inl hf
    · right
      have hf' : pd.fetchOk = true := by
        rcases Bool.eq_false_or_eq_true pd.fetchOk with h' | h'
        · exact h'
        · exact absurd h' hf
      have hrest : cascade_rest pd = none := by
        unfold extract_with_requests at h
        rw [if_neg (by simp [hf'])] at h
        cases he : pd.trafExtract with
        | none => simp only [he] at h; exact h
        | some ex =>
          simp only [he] at h
          by_cases hgt : 200 < (pyStrip ex).length
          · rw [if_pos hgt] at h
            simp only [parse_with_trafilatura, he] at h
            rw [if_neg (by omega)] at h
            simp at h
          · rw [if_neg hgt] at h
            exact h
      cases hr : parse_with_readability pd with
      | some it => rw [hrest_some (by rw [hr]; rfl), hr] at hrest; simp at hrest
      | none =>
        cases hn : parse_with_newspaper pd with
        | some it =>
          rw [hrest_news hr (by rw [hn]; rfl), hn] at hrest
          simp at hrest
        | none =>
          refine ⟨rfl, rfl, ?_⟩
          rw [← hrest_man hr hn]
          exact hrest

/-- C2 witness: the order facts at a concrete page — the gate passes at
201 stripped characters and the structured item is returned. -/
theorem C2_witness :
    extract_with_requests
      { pdGateBoundary with trafExtract := some ⟨List.replicate 201 'b'⟩ } =
      parse_with_trafilatura
        { pdGateBoundary with
            trafExtract := some ⟨List.replicate 201 'b'⟩ } ∧
    (parse_with_trafilatura
      { pdGateBoundary with
          trafExtract := some ⟨List.replicate 201 'b'⟩ }).isSome = true :=
  (C2_cascade_order _).2.1 ⟨List.replicate 201 'b'⟩ rfl rfl (by decide)

theorem filterMap_eq_map_of_some {α β : Type} {f : α → Option β}
    {g : α → β} :
    ∀ (l : List α), (∀ a ∈ l, f a = some (g a)) →
      l.filterMap f = l.map g
  | [], _ => rfl
  | x :: xs, h => by
    rw [List.filterMap_cons_some (h x (List.mem_cons_self _ _)),
      List.map_cons,
      filterMap_eq_map_of_some xs
        (fun a ha => h a (List.mem_cons_of_mem _ ha))]

theorem rangesOk_cons (a b : Nat) (rest : List (Nat × Nat))
    (start total : Nat) :
    rangesOk ((a, b) :: rest) start total =
      ((a == start) && decide (a ≤ b) && decide (b + 1 ≤ a + 5) &&
       (rest.isEmpty || b + 1 == a + 5) &&
       rangesOk rest (b + 1) total) := rfl

theorem chunkRangesFrom_succ (j k total : Nat) :
    chunkRangesFrom j (k + 1) total =
      (5 * j + 1, min (5 * j + 5) total) :: chunkRangesFrom (j + 1) k total
    := by
  unfold chunkRangesFrom
  rw [List.range_succ_eq_map, List.map_cons, List.map_map]
  have h0 : (5 * (j + 0) + 1, min (5 * (j + 0) + 5) total) =
      (5 * j + 1, min (5 * j + 5) total) := by
    have hz : j + 0 = j := by omega
    rw [hz]
  rw [h0]
  congr 1
  apply List.map_congr_left
  intro i _
  show (5 * (j + Nat.succ i) + 1, min (5 * (j + Nat.succ i) + 5) total) =
    (5 * (j + 1 + i) + 1, min (5 * (j + 1 + i) + 5) total)
  have he : j + Nat.succ i = j + 1 + i := by omega
  rw [he]

theorem rangesOk_chunkRangesFrom :
    ∀ (k j total : Nat), 5 * j ≤ total → (total - 5 * j + 4) / 5 = k →
      rangesOk (chunkRangesFrom j k total) (5 * j + 1) total = true
  | 0, j, total, h1, h2 => by
    have ht : total = 5 * j := by omega
    simp [chunkRangesFrom, rangesOk, ht]
  | k + 1, j, total, h1, h2 => by
    rw [chunkRangesFrom_succ, rangesOk_cons]
    simp only [Bool.and_eq_true, Bool.or_eq_true, beq_iff_eq,
      decide_eq_true_eq, List.isEmpty_iff]
    have htot1 : 5 * j + 1 ≤ total := by omega
    refine ⟨⟨⟨⟨by trivial, by omega⟩, by omega⟩, ?_⟩, ?_⟩
    · by_cases hge : 5 * j + 5 ≤ total
      · right; omega
      · left
        have hk : k = 0 := by omega
        subst hk
        simp [chunkRangesFrom]
    · by_cases hge : 5 * j + 5 ≤ total
      · have hmin : min (5 * j + 5) total = 5 * j + 5 := min_eq_left hge
        rw [hmin]
        have hstart : 5 * j + 5 + 1 = 5 * (j + 1) + 1 := by omega
        rw [hstart]
        exact rangesOk_chunkRangesFrom k (j + 1) total (by omega) (by omega)
      · have hk : k = 0 := by omega
        subst hk
        have hmin : min (5 * j + 5) total = total :=
          min_eq_right (by omega)
        rw [hmin]
        simp [chunkRangesFrom, rangesOk]

theorem pdfChunkRanges_eq (total : Nat) :
    pdfChunkRanges total = chunkRangesFrom 0 ((total + 4) / 5) total := by
  unfold pdfChunkRanges chunkRangesFrom rangeStep5
  rw [List.map_map]
  apply List.map_congr_left
  intro i _
  simp only [Function.comp_apply, Prod.mk.injEq]
  constructor
  · omega
  · have he : i * 5 = 5 * (0 + i) := by omega
    rw [he]

theorem rangesOk_pdfChunkRanges (total : Nat) :
    rangesOk (pdfChunkRanges total) 1 total = true := by
  rw [pdfChunkRanges_eq]
  have h := rangesOk_chunkRangesFrom ((total + 4) / 5) 0 total
    (by omega) (by omega)
  simpa using h

/-- C5 counterexample: a one-page document whose page text is empty
yields no items at all, not `ceil(1/5) = 1` items — empty chunks are
skipped by the source. -/
theorem C5_counterexample :
    extract_with_pypdf [""] "T" "A" "doc.pdf" = [] ∧
    (List.length ([""] : List String) + 4) / 5 = 1 := by decide

/-- C5 (amended): for a document whose every 5-page chunk has
non-whitespace extracted text (in general one item is emitted per
non-empty chunk), the extractor emits exactly `ceil(P/5)` items; the
chunk ranges start at page 1, are contiguous, ascending and disjoint,
each spans at most 5 pages — exactly 5 except possibly the last — and
they end exactly at page `P`; each item is titled with its 1-based
range. -/
theorem C5_pdf_chunking (pages : List String) (title author path : String)
    (hall : ∀ cs ∈ rangeStep5 pages.length,
      pyStrip (chunkText pages cs (min (cs + 5) pages.length)) ≠ "") :
    (extract_with_pypdf pages title author path).length =
      (pages.length + 4) / 5 ∧
    rangesOk (pdfChunkRanges pages.length) 1 pages.length = true ∧
    (extract_with_pypdf pages title author path).map KnowledgeItem.title =
      (pdfChunkRanges pages.length).map
        (fun r => title ++ " - Pages " ++ toString r.1 ++ "-" ++
          toString r.2) := by
  have hmap : extract_with_pypdf pages title author path =
      (rangeStep5 pages.length).map (fun cs =>
        { title := title ++ " - Pages " ++ toString (cs + 1) ++ "-" ++
            toString (min (cs + 5) pages.length),
          content := some (text_to_markdown
            (chunkText pages cs (min (cs + 5) pages.length))),
          content_type := "book",
          source_url := "file://" ++ path,
          author := author,
          user_id := "" }) := by
    unfold extract_with_pypdf
    apply filterMap_eq_map_of_some
    intro cs hcs
    rw [if_pos (hall cs hcs)]
  refine ⟨?_, rangesOk_pdfChunkRanges _, ?_⟩
  · rw [hmap, List.length_map]
    simp [rangeStep5]
  · rw [hmap, List.map_map]
    unfold pdfChunkRanges
    rw [List.map_map]
    apply List.map_congr_left
    intro cs _
    rfl

/-- C5 witness: Scenario E — a 12-page document with non-blank pages
yields 3 items titled with the ranges 1–5, 6–10 and 11–12. -/
theorem C5_witness :
    (extract_with_pypdf (List.replicate 12 "x") "Doc" "" "f.pdf").length
      = 3 ∧
    (extract_with_pypdf (List.replicate 12 "x") "Doc" "" "f.pdf").map
      KnowledgeItem.title =
      ["Doc - Pages 1-5", "Doc - Pages 6-10", "Doc - Pages 11-12"] := by
  have h := C5_pdf_chunking (List.replicate 12 "x") "Doc" "" "f.pdf"
    (by decide)
  refine ⟨?_, ?_⟩
  · rw [h.1]
    decide
  · rw [h.2.2]
    decide

/-- C9 counterexample: with the fed cap 1, a single harvested page can
contribute two filtered URLs, so discovery does not bound the number of
returned URLs by the fed cap — the cap bounds pages visited, not URLs. -/
theorem C9_counterexample :
    1 < (discover_blog_urls "https://s.com" 1 (some [])
      (fun _ => some ["https://s.com/u1", "https://s.com/u2"])).length := by
  decide

/-- C9 (amended): every returned URL passes the deny-list filter
`_is_blog_post_url` (so none matches `/tag/`, `/category/`, `/author/`,
`/page/`, `/search`, `/feed`, the other literal patterns, or a
binary/document extension at the end, case-insensitively); the returned
list is duplicate-free (exact-string dedup); the number of pages visited
is at most the fed cap whenever pagination harvesting succeeds; and
total collaborator failure yields the empty list rather than an
exception.  The number of returned URLs is not capped. -/
theorem C9_url_discovery (b : String) (m : Nat)
    (ph : Option (List String)) (pl : String → Option (List String)) :
    (∀ u ∈ discover_blog_urls b m ph pl, is_blog_post_url u = true) ∧
    (discover_blog_urls b m ph pl).Nodup ∧
    (∀ hs, ph = some hs → (discover_pagination b m ph).length ≤ m) ∧
    discover_blog_urls b m none (fun _ => none) = [] := by
  refine ⟨?_, ?_, ?_, ?_⟩
  · intro u hu
    unfold discover_blog_urls at hu
    rw [List.mem_dedup, List.mem_flatMap] at hu
    obtain ⟨p, _, hp⟩ := hu
    unfold extract_blog_urls_from_page at hp
    cases hl : pl p with
    | none => rw [hl] at hp; simp at hp
    | some ls =>
      rw [hl] at hp
      rw [List.mem_dedup] at hp
      exact (List.mem_filter.mp hp).2
  · exact List.nodup_dedup _
  · intro hs he
    rw [he]
    show ((hs.foldl
      (fun acc h => if h ∉ acc ∧ acc.length < m then acc ++ [h] else acc)
      [b]).take m).length ≤ m
    rw [List.length_take]
    omega
  · rfl

/-- C9 witness: the amended properties at concrete discovery runs. -/
theorem C9_witness :
    is_blog_post_url "https://s.com/post1" = true ∧
    (discover_pagination "https://s.com" 2
      (some ["https://s.com/b"])).length ≤ 2 ∧
    discover_blog_urls "https://s.com" 3 none (fun _ => none) = [] := by
  have h := C9_url_discovery "https://s.com" 2 (some ["https://s.com/b"])
    (fun _ => some ["https://s.com/post1"])
  refine ⟨?_, h.2.2.1 _ rfl, ?_⟩
  · apply h.1
    decide
  · exact (C9_url_discovery "https://s.com" 3 none (fun _ => none)).2.2.2

/-- C10 witness: the request `"hello world"` with a failing extractor
routes direct and exports an empty, well-formed item list. -/
theorem C10_witness :
    process_request_route "hello world" = Handler.direct ∧
    handle_direct_url "team" "hello world" 10 (fun _ => none)
      (fun _ => []) (fun _ => []) = { team_id := "team", items := [] } := by
  have h := C10_direct_route "team" "hello world" 10 (fun _ => none)
    (fun _ => []) (fun _ => []) (by decide) (by decide) (by decide)
  exact ⟨h.1, h.2.2 (by decide) (by decide) (by decide) rfl⟩
